import Mathlib

/-!
Shallow embedding of `wav-decoder-ts` (`src/index.ts`).

The byte buffer is a `List Nat` of byte values; the closure-based reader from
`createReader` becomes explicit state passing of an `RState`.  JS numbers that
can only ever hold integers are `Nat`/`Int`; decoded sample values are exact
rationals (`ℚ`) together with the IEEE special values that `getFloat32` /
`getFloat64` can produce.  The rounding performed when a sample is stored into
a `Float32Array` is not modelled (no claim depends on stored precision).
A read past the end of the `DataView` raises a RangeError in JS; here every
read is `Option`-valued and the decode functions return `Except`, with the
error carrying the reader state at the moment the exception is thrown.
-/

namespace WavDec

/-- JS number values produced by the sample decoders: exact rationals, plus
the IEEE special values that a raw `getFloat32`/`getFloat64` read can return. -/
inductive JSVal where
  | q (x : ℚ)
  | posInf
  | negInf
  | nan
deriving DecidableEq, Repr

/-- Value of the JS expression `Math.floor(chunkSize / blockSize /
numberOfChannels)`: a finite integer, `Infinity`, `-Infinity` or `NaN`. -/
inductive JSLen where
  | fin (k : ℤ)
  | posInf
  | negInf
  | nan
deriving DecidableEq, Repr

/-- State of the closure-based reader from `createReader`: the mutable `pos`,
plus two ghost fields used only for stating invariants (they never influence
control flow or any data value): `mono` stays `true` as long as every change
of `pos` so far was non-negative, and `shortFmt` becomes `true` once a
`fmt ` chunk with declared size `< 16` has been decoded. -/
structure RState where
  pos : Int
  mono : Bool
  shortFmt : Bool
deriving DecidableEq, Repr

/-- Reader state at the start of `decodeSync` (`let pos = 0`). -/
def initState : RState := ⟨0, true, false⟩

/-- One byte of the `DataView`.  The view throws a RangeError outside
`[0, byteLength)`; a stored byte is always `< 256` (the `% 256` merely makes
the model total on arbitrary `List Nat` without changing it on byte buffers). -/
def getByte (dv : List Nat) (p : Int) : Option Nat :=
  if p < 0 then none else (dv.get? p.toNat).map (· % 256)

/-- Advance the position by `n` bytes after a successful fixed-width read. -/
def adv (s : RState) (n : Nat) : RState := ⟨s.pos + n, s.mono, s.shortFmt⟩

/-- Model of `skip(n)`: `pos += n`, no bounds check; `n` may be negative
(`decodeFormat` passes `chunkSize - 16`).  The ghost `mono` flag is cleared
exactly when the offset moves backward. -/
def skipBy (s : RState) (n : Int) : RState :=
  ⟨s.pos + n, s.mono && decide (0 ≤ n), s.shortFmt⟩

/-- Model of `uint8()`. -/
def readU8 (dv : List Nat) (s : RState) : Option (Nat × RState) :=
  (getByte dv s.pos).map fun b => (b, adv s 1)

/-- Model of `uint16()`: two bytes little-endian. -/
def readU16 (dv : List Nat) (s : RState) : Option (Nat × RState) :=
  match getByte dv s.pos, getByte dv (s.pos + 1) with
  | some b0, some b1 => some (b0 + 256 * b1, adv s 2)
  | _, _ => none

/-- Model of `uint32()`: four bytes little-endian. -/
def readU32 (dv : List Nat) (s : RState) : Option (Nat × RState) :=
  match getByte dv s.pos, getByte dv (s.pos + 1),
        getByte dv (s.pos + 2), getByte dv (s.pos + 3) with
  | some b0, some b1, some b2, some b3 =>
      some (b0 + 256 * b1 + 65536 * b2 + 16777216 * b3, adv s 4)
  | _, _, _, _ => none

/-- Model of `string(4)`: four `uint8` reads; the tag is kept as the list of
byte values (`String.fromCharCode` is injective on byte values). -/
def readTag4 (dv : List Nat) (s : RState) : Option (List Nat × RState) :=
  match getByte dv s.pos, getByte dv (s.pos + 1),
        getByte dv (s.pos + 2), getByte dv (s.pos + 3) with
  | some b0, some b1, some b2, some b3 => some ([b0, b1, b2, b3], adv s 4)
  | _, _, _, _ => none

/-- Byte values of the ASCII tag `RIFF`. -/
def riffTag : List Nat := [82, 73, 70, 70]

/-- Byte values of the ASCII tag `WAVE`. -/
def waveTag : List Nat := [87, 65, 86, 69]

/-- Byte values of the ASCII tag `fmt ` (with trailing space). -/
def fmtTag : List Nat := [102, 109, 116, 32]

/-- Byte values of the ASCII tag `data`. -/
def dataTag : List Nat := [100, 97, 116, 97]

/-- Signed reinterpretation used by `getInt16` (little-endian). -/
def toI16 (u : Nat) : Int := if u < 32768 then u else (u : Int) - 65536

/-- Signed reinterpretation used by `getInt32` (little-endian). -/
def toI32 (u : Nat) : Int := if u < 2147483648 then u else (u : Int) - 4294967296

/-- Type of the per-sample decode methods of the reader. -/
def PcmFn : Type := List Nat → RState → Option (JSVal × RState)

/-- Model of `pcm8`: unsigned byte centred at 128, asymmetric scaling. -/
def pcm8 : PcmFn := fun dv s =>
  (getByte dv s.pos).map fun b =>
    let data : ℚ := (b : ℚ) - 128
    (.q (if data < 0 then data / 128 else data / 127), adv s 1)

/-- Model of `pcm8s`: unsigned byte centred at 127.5, symmetric scaling. -/
def pcm8s : PcmFn := fun dv s =>
  (getByte dv s.pos).map fun b =>
    let data : ℚ := (b : ℚ) - 127.5
    (.q (data / 127.5), adv s 1)

/-- Model of `pcm16`: signed 16-bit, asymmetric scaling. -/
def pcm16 : PcmFn := fun dv s =>
  match getByte dv s.pos, getByte dv (s.pos + 1) with
  | some b0, some b1 =>
      let data : ℚ := (toI16 (b0 + 256 * b1) : ℚ)
      some (.q (if data < 0 then data / 32768 else data / 32767), adv s 2)
  | _, _ => none

/-- Model of `pcm16s`: signed 16-bit, symmetric scaling. -/
def pcm16s : PcmFn := fun dv s =>
  match getByte dv s.pos, getByte dv (s.pos + 1) with
  | some b0, some b1 =>
      let data : ℚ := (toI16 (b0 + 256 * b1) : ℚ)
      some (.q (data / 32768), adv s 2)
  | _, _ => none

/-- Model of `pcm24`: three bytes assembled little-endian
(`x0 + (x1 << 8) + (x2 << 16)`), reduced by `0x1000000` when strictly above
`0x800000`, then asymmetric scaling. -/
def pcm24 : PcmFn := fun dv s =>
  match getByte dv s.pos, getByte dv (s.pos + 1), getByte dv (s.pos + 2) with
  | some x0, some x1, some x2 =>
      let xx : Nat := x0 + 256 * x1 + 65536 * x2
      let data : ℚ := if 8388608 < xx then (xx : ℚ) - 16777216 else (xx : ℚ)
      some (.q (if data < 0 then data / 8388608 else data / 8388607), adv s 3)
  | _, _, _ => none

/-- Model of `pcm24s`: same 24-bit assembly, symmetric scaling. -/
def pcm24s : PcmFn := fun dv s =>
  match getByte dv s.pos, getByte dv (s.pos + 1), getByte dv (s.pos + 2) with
  | some x0, some x1, some x2 =>
      let xx : Nat := x0 + 256 * x1 + 65536 * x2
      let data : ℚ := if 8388608 < xx then (xx : ℚ) - 16777216 else (xx : ℚ)
      some (.q (data / 8388608), adv s 3)
  | _, _, _ => none

/-- Model of `pcm32`: signed 32-bit, asymmetric scaling. -/
def pcm32 : PcmFn := fun dv s =>
  match getByte dv s.pos, getByte dv (s.pos + 1),
        getByte dv (s.pos + 2), getByte dv (s.pos + 3) with
  | some b0, some b1, some b2, some b3 =>
      let data : ℚ := (toI32 (b0 + 256 * b1 + 65536 * b2 + 16777216 * b3) : ℚ)
      some (.q (if data < 0 then data / 2147483648 else data / 2147483647), adv s 4)
  | _, _, _, _ => none

/-- Model of `pcm32s`: signed 32-bit, symmetric scaling. -/
def pcm32s : PcmFn := fun dv s =>
  match getByte dv s.pos, getByte dv (s.pos + 1),
        getByte dv (s.pos + 2), getByte dv (s.pos + 3) with
  | some b0, some b1, some b2, some b3 =>
      let data : ℚ := (toI32 (b0 + 256 * b1 + 65536 * b2 + 16777216 * b3) : ℚ)
      some (.q (data / 2147483648), adv s 4)
  | _, _, _, _ => none

/-- Exact value of an IEEE-754 binary32 bit pattern (already assembled
little-endian into `u`), as returned by `getFloat32`. -/
def f32val (u : Nat) : JSVal :=
  let sgn : Nat := u / 2 ^ 31 % 2
  let e : Nat := u / 2 ^ 23 % 256
  let m : Nat := u % 2 ^ 23
  if e = 255 then
    if m = 0 then (if sgn = 0 then .posInf else .negInf) else .nan
  else
    let mag : ℚ := if e = 0 then (m : ℚ) * 2 / 2 ^ 150 else ((2 ^ 23 + m : ℚ)) * 2 ^ e / 2 ^ 150
    .q (if sgn = 0 then mag else -mag)

/-- Exact value of an IEEE-754 binary64 bit pattern, as returned by
`getFloat64`. -/
def f64val (u : Nat) : JSVal :=
  let sgn : Nat := u / 2 ^ 63 % 2
  let e : Nat := u / 2 ^ 52 % 2048
  let m : Nat := u % 2 ^ 52
  if e = 2047 then
    if m = 0 then (if sgn = 0 then .posInf else .negInf) else .nan
  else
    let mag : ℚ := if e = 0 then (m : ℚ) * 2 / 2 ^ 1075 else ((2 ^ 52 + m : ℚ)) * 2 ^ e / 2 ^ 1075
    .q (if sgn = 0 then mag else -mag)

/-- Model of `pcm32f`: raw little-endian binary32, passed through unscaled. -/
def pcm32f : PcmFn := fun dv s =>
  match getByte dv s.pos, getByte dv (s.pos + 1),
        getByte dv (s.pos + 2), getByte dv (s.pos + 3) with
  | some b0, some b1, some b2, some b3 =>
      some (f32val (b0 + 256 * b1 + 65536 * b2 + 16777216 * b3), adv s 4)
  | _, _, _, _ => none

/-- Model of `pcm64f`: raw little-endian binary64, passed through unscaled. -/
def pcm64f : PcmFn := fun dv s =>
  match getByte dv s.pos, getByte dv (s.pos + 1),
        getByte dv (s.pos + 2), getByte dv (s.pos + 3),
        getByte dv (s.pos + 4), getByte dv (s.pos + 5),
        getByte dv (s.pos + 6), getByte dv (s.pos + 7) with
  | some b0, some b1, some b2, some b3, some b4, some b5, some b6, some b7 =>
      some (f64val (b0 + 256 * b1 + 65536 * b2 + 16777216 * b3 +
              4294967296 * b4 + 1099511627776 * b5 + 281474976710656 * b6 +
              72057594037927936 * b7), adv s 8)
  | _, _, _, _, _, _, _, _ => none

/-- Model of the dynamic dispatch in `readPCM`: the method name is formed as
the string `pcm` + bitDepth + (`f` when floating point, else `s` when the
symmetric option is truthy, else nothing) and looked up on the reader;
`none` when the reader exposes no method of that name. -/
def selectPcm (bitDepth : Nat) (floatingPoint symmetric : Bool) : Option PcmFn :=
  if floatingPoint then
    if bitDepth = 32 then some pcm32f
    else if bitDepth = 64 then some pcm64f
    else none
  else if symmetric then
    if bitDepth = 8 then some pcm8s
    else if bitDepth = 16 then some pcm16s
    else if bitDepth = 24 then some pcm24s
    else if bitDepth = 32 then some pcm32s
    else none
  else
    if bitDepth = 8 then some pcm8
    else if bitDepth = 16 then some pcm16
    else if bitDepth = 24 then some pcm24
    else if bitDepth = 32 then some pcm32
    else none

/-- The errors a decode can end with.  `invalidWav` is the
`TypeError('Invalid WAV file')`; `oobRead` is the RangeError a `DataView`
access past the end throws; `invalidArrayLength` is the RangeError of
`new Float32Array(length)` on a negative or infinite length; `nullFormat`
is the TypeError of dereferencing the still-`null` format when a `data`
chunk precedes any `fmt ` chunk; `diverges` marks the one configuration in
which the source loop runs forever; `fuelOut` is a model artefact of the
bounded chunk walk. -/
inductive DecodeError where
  | invalidWav
  | unsupportedFormat (id : Nat)
  | unsupportedBitDepth (d : Nat)
  | oobRead
  | invalidArrayLength
  | nullFormat
  | diverges
  | fuelOut
deriving DecidableEq, Repr

/-- The parsed `fmt ` descriptor. -/
structure Format where
  formatId : Nat
  floatingPoint : Bool
  numberOfChannels : Nat
  sampleRate : Nat
  byteRate : Nat
  blockSize : Nat
  bitDepth : Nat
deriving DecidableEq, Repr

/-- The options object: its one recognized field, `symmetric`, may be absent. -/
structure DecodeOptions where
  symmetric : Option Bool := none
deriving DecidableEq, Repr

/-- The record `decodeData` returns (`decodeSync` hands it out as AudioData). -/
structure DecodeInfo where
  numberOfChannels : Nat
  length : JSLen
  sampleRate : Nat
  channelData : List (List JSVal)
deriving DecidableEq, Repr

/-- The `formats` lookup table: defined exactly at keys 1 and 3 (both map to
the string `lpcm`, whose content is never used). -/
def formatsDefined (formatId : Nat) : Bool := formatId == 1 || formatId == 3

/-- Model of `decodeFormat`: read the 2-byte formatId; unless it is a key of
`formats`, return the `UnsupportedFormat` TypeError at once; otherwise read
the five remaining fields and `skip(chunkSize - 16)`. -/
def decodeFormat (dv : List Nat) (chunkSize : Nat) (s0 : RState) :
    Except (DecodeError × RState) (Format × RState) :=
  match readU16 dv s0 with
  | none => .error (.oobRead, s0)
  | some (formatId, s1) =>
    if formatsDefined formatId = false then .error (.unsupportedFormat formatId, s1)
    else
      match readU16 dv s1 with
      | none => .error (.oobRead, s1)
      | some (numberOfChannels, s2) =>
        match readU32 dv s2 with
        | none => .error (.oobRead, s2)
        | some (sampleRate, s3) =>
          match readU32 dv s3 with
          | none => .error (.oobRead, s3)
          | some (byteRate, s4) =>
            match readU16 dv s4 with
            | none => .error (.oobRead, s4)
            | some (blockSize, s5) =>
              match readU16 dv s5 with
              | none => .error (.oobRead, s5)
              | some (bitDepth, s6) =>
                let s7 := skipBy s6 ((chunkSize : Int) - 16)
                let s8 : RState := ⟨s7.pos, s7.mono, s7.shortFmt || decide (chunkSize < 16)⟩
                .ok ({ formatId := formatId, floatingPoint := formatId == 3,
                       numberOfChannels := numberOfChannels, sampleRate := sampleRate,
                       byteRate := byteRate, blockSize := blockSize,
                       bitDepth := bitDepth }, s8)

/-- JS value of `Math.floor(chunkSize / blockSize / numberOfChannels)`.
Division is double division; since `chunkSize < 2^52`, the two roundings
cannot carry the quotient across an integer, so the finite case is the exact
floor `Int.fdiv`. -/
def jsFrameLength (c : Int) (b n : Nat) : JSLen :=
  if b = 0 ∨ n = 0 then
    if 0 < c then .posInf else if c = 0 then .nan else .negInf
  else .fin (Int.fdiv c (b * n))

/-- Iteration count of `for (i = 0; i < length; i++)` when it is finite;
`none` when the loop never exits (`length = Infinity`). -/
def numIter : JSLen → Option Nat
  | .fin k => some k.toNat
  | .posInf => none
  | .negInf => some 0
  | .nan => some 0

/-- Length of the array `new Float32Array(length)` allocates: `NaN` converts
to index 0; negative or infinite lengths throw a RangeError (`none`). -/
def arrayLen : JSLen → Option Nat
  | .fin k => if 0 ≤ k then some k.toNat else none
  | .nan => some 0
  | _ => none

/-- Model of the write `channelData[ch][i] = v` (out-of-range indices cannot
occur on the paths the decoder takes; `List.set` leaves them unchanged). -/
def writeSample (cd : List (List JSVal)) (ch i : Nat) (v : JSVal) : List (List JSVal) :=
  cd.set ch ((cd.getD ch []).set i v)

/-- The freshly allocated channel arrays: `n` zero-filled arrays of length
`len` (a `Float32Array` is zero-initialized). -/
def initCd (n len : Nat) : List (List JSVal) :=
  List.replicate n (List.replicate len (.q 0))

/-- Inner loop of `readPCM` over one frame `i`: `chs` channels remain to be
read, the next write goes to channel index `ch`. -/
def readFrame (rd : PcmFn) (dv : List Nat) (i : Nat) :
    Nat → Nat → List (List JSVal) → RState →
    Except (DecodeError × RState) (List (List JSVal) × RState)
  | 0, _, cd, s => .ok (cd, s)
  | chs + 1, ch, cd, s =>
    match rd dv s with
    | none => .error (.oobRead, s)
    | some (v, s1) => readFrame rd dv i chs (ch + 1) (writeSample cd ch i v) s1

/-- Outer loop of `readPCM` with a finite bound: `it` frames remain, `i` is
the current frame index. -/
def pcmLoop (rd : PcmFn) (dv : List Nat) (n : Nat) :
    Nat → Nat → List (List JSVal) → RState →
    Except (DecodeError × RState) (List (List JSVal) × RState)
  | 0, _, cd, s => .ok (cd, s)
  | it + 1, i, cd, s =>
    match readFrame rd dv i n 0 cd s with
    | .error e => .error e
    | .ok (cd1, s1) => pcmLoop rd dv n it (i + 1) cd1 s1

/-- The loop test `i < length` on the JS number `length`. -/
def jsLtLen (i : Nat) : JSLen → Bool
  | .fin k => decide ((i : Int) < k)
  | .posInf => true
  | .negInf => false
  | .nan => false

/-- Step-indexed model of the same source loop keeping the bound as the JS
number `length`: one unit of fuel per test of `i < length`; `none` means the
loop is still running when the fuel runs out. -/
def loopFuel (rd : PcmFn) (dv : List Nat) (n : Nat) (bound : JSLen) :
    Nat → Nat → List (List JSVal) → RState →
    Option (Except (DecodeError × RState) (List (List JSVal) × RState))
  | 0, _, _, _ => none
  | fuel + 1, i, cd, s =>
    if jsLtLen i bound then
      match readFrame rd dv i n 0 cd s with
      | .error e => some (.error e)
      | .ok (cd1, s1) => loopFuel rd dv n bound fuel (i + 1) cd1 s1
    else some (.ok (cd, s))

/-- Model of `readPCM`: dispatch on `(bitDepth, floatingPoint, symmetric)`,
then run the interleaved sample loop. -/
def readPCM (dv : List Nat) (channelData : List (List JSVal)) (length : JSLen)
    (format : Format) (opts : DecodeOptions) (s : RState) :
    Except (DecodeError × RState) (List (List JSVal) × RState) :=
  match selectPcm format.bitDepth format.floatingPoint (opts.symmetric.getD false) with
  | none => .error (.unsupportedBitDepth format.bitDepth, s)
  | some rd =>
    match numIter length with
    | none => .error (.diverges, s)
    | some it => pcmLoop rd dv format.numberOfChannels it 0 channelData s

/-- Model of `decodeData`: clamp the declared size to the remaining bytes,
compute the frame length, allocate the channel arrays, and fill them. -/
def decodeData (dv : List Nat) (declaredSize : Nat) (format? : Option Format)
    (opts : DecodeOptions) (s : RState) :
    Except (DecodeError × RState) (DecodeInfo × RState) :=
  match format? with
  | none => .error (.nullFormat, s)
  | some format =>
    let chunkSize : Int := min (declaredSize : Int) ((dv.length : Int) - s.pos)
    let n := format.numberOfChannels
    let length := jsFrameLength chunkSize format.blockSize n
    if n ≠ 0 ∧ arrayLen length = none then .error (.invalidArrayLength, s)
    else
      match readPCM dv (initCd n ((arrayLen length).getD 0)) length format opts s with
      | .error e => .error e
      | .ok (cd, s1) =>
        .ok ({ numberOfChannels := n, length := length,
               sampleRate := format.sampleRate, channelData := cd }, s1)

/-- The do/while chunk loop of `decodeSync`.  The fuel only bounds the model:
every iteration advances the position by at least 8 bytes and needs its
8-byte header in bounds, so `dv.length + 1` iterations can never run out. -/
def walk (dv : List Nat) (opts : DecodeOptions) :
    Nat → Option Format → RState → Except (DecodeError × RState) (DecodeInfo × RState)
  | 0, _, s => .error (.fuelOut, s)
  | fuel + 1, format?, s =>
    match readTag4 dv s with
    | none => .error (.oobRead, s)
    | some (chunkType, s1) =>
      match readU32 dv s1 with
      | none => .error (.oobRead, s1)
      | some (chunkSize, s2) =>
        if chunkType = fmtTag then
          match decodeFormat dv chunkSize s2 with
          | .error e => .error e
          | .ok (format, s3) => walk dv opts fuel (some format) s3
        else if chunkType = dataTag then
          decodeData dv chunkSize format? opts s2
        else
          walk dv opts fuel format? (skipBy s2 (chunkSize : Int))

/-- Model of `decodeSync`: check `RIFF`, skip the file length, check `WAVE`,
then walk the chunks until a `data` chunk has been decoded. -/
def decodeSync (dv : List Nat) (opts? : Option DecodeOptions) :
    Except (DecodeError × RState) (DecodeInfo × RState) :=
  let opts := opts?.getD {}
  match readTag4 dv initState with
  | none => .error (.oobRead, initState)
  | some (t1, s1) =>
    if t1 ≠ riffTag then .error (.invalidWav, s1)
    else
      match readU32 dv s1 with
      | none => .error (.oobRead, s1)
      | some (_, s2) =>
        match readTag4 dv s2 with
        | none => .error (.oobRead, s2)
        | some (t2, s3) =>
          if t2 ≠ waveTag then .error (.invalidWav, s3)
          else walk dv opts (dv.length + 1) none s3

/-- Traverses the chunk sequence exactly as `walk` does and checks that every
successfully decoded `fmt ` chunk carries the IEEE-float formatId 3. -/
def fmtAllFloat (dv : List Nat) : Nat → RState → Bool
  | 0, _ => true
  | fuel + 1, s =>
    match readTag4 dv s with
    | none => true
    | some (chunkType, s1) =>
      match readU32 dv s1 with
      | none => true
      | some (chunkSize, s2) =>
        if chunkType = fmtTag then
          match decodeFormat dv chunkSize s2 with
          | .error _ => true
          | .ok (format, s3) => format.formatId == 3 && fmtAllFloat dv fuel s3
        else if chunkType = dataTag then true
        else fmtAllFloat dv fuel (skipBy s2 (chunkSize : Int))

/-- Reads `k` consecutive samples with `rd`, in cursor order. -/
def readSamples (rd : PcmFn) (dv : List Nat) : Nat → RState → Option (List JSVal × RState)
  | 0, s => some ([], s)
  | k + 1, s =>
    match rd dv s with
    | none => none
    | some (v, s1) =>
      match readSamples rd dv k s1 with
      | none => none
      | some (ws, s2) => some (v :: ws, s2)

/-- Reader state a decode run ends in (for errors, the state at the throw). -/
def resSt {α : Type} : Except (DecodeError × RState) (α × RState) → RState
  | .error (_, s) => s
  | .ok (_, s) => s

/-- A minimal 16-bit integer-PCM WAV file: `RIFF` header with declared file
length `36 + N*L*2`, a 16-byte `fmt ` chunk declaring integer PCM, `N`
channels, sample rate 44100, block size `2 * N`, bit depth 16, then a `data`
chunk declaring `N * L * 2` bytes whose body is `pcm`. -/
def minimalWav16 (N L : Nat) (pcm : List Nat) : List Nat :=
  82 :: 73 :: 70 :: 70 ::
  (36 + N * L * 2) % 256 :: (36 + N * L * 2) / 256 % 256 ::
    (36 + N * L * 2) / 65536 % 256 :: (36 + N * L * 2) / 16777216 % 256 ::
  87 :: 65 :: 86 :: 69 ::
  102 :: 109 :: 116 :: 32 :: 16 :: 0 :: 0 :: 0 ::
  1 :: 0 ::
  N % 256 :: N / 256 % 256 ::
  68 :: 172 :: 0 :: 0 ::
  0 :: 0 :: 0 :: 0 ::
  (2 * N) % 256 :: (2 * N) / 256 % 256 ::
  16 :: 0 ::
  100 :: 97 :: 116 :: 97 ::
  (N * L * 2) % 256 :: (N * L * 2) / 256 % 256 ::
    (N * L * 2) / 65536 % 256 :: (N * L * 2) / 16777216 % 256 ::
  pcm

/-- A WAV file whose `fmt ` chunk declares size 0: the 16 descriptor bytes are
still read, then `skip(0 - 16)` moves the cursor backward to position 20. -/
def shortFmtWav : List Nat :=
  [82, 73, 70, 70, 0, 0, 0, 0, 87, 65, 86, 69,
   102, 109, 116, 32, 0, 0, 0, 0,
   1, 0, 2, 0, 68, 172, 0, 0, 68, 172, 0, 0, 4, 0, 16, 0]

/-- A WAV file whose `fmt ` chunk declares `blockSize = 1` with
`bitDepth = 16`, and whose `data` chunk declares 100 bytes while only 4
remain: the clamped size is 4, the frame length is 4, and the third 16-bit
sample read starts at offset 48 = byte length of the buffer. -/
def badBlockWav : List Nat :=
  [82, 73, 70, 70, 0, 0, 0, 0, 87, 65, 86, 69,
   102, 109, 116, 32, 16, 0, 0, 0,
   1, 0, 1, 0, 64, 31, 0, 0, 64, 31, 0, 0, 1, 0, 16, 0,
   100, 97, 116, 97, 100, 0, 0, 0, 9, 9, 9, 9]

section StateLemmas

/-- A successful `uint16` read advances the position by exactly 2 bytes. -/
theorem readU16_state {dv : List Nat} {s : RState} {r : Nat × RState}
    (h : readU16 dv s = some r) : r.2 = adv s 2 := by
  unfold readU16 at h
  split at h
  · cases h; rfl
  · cases h

/-- A successful `uint32` read advances the position by exactly 4 bytes. -/
theorem readU32_state {dv : List Nat} {s : RState} {r : Nat × RState}
    (h : readU32 dv s = some r) : r.2 = adv s 4 := by
  unfold readU32 at h
  split at h
  · cases h; rfl
  · cases h

/-- A successful `string(4)` read advances the position by exactly 4 bytes. -/
theorem readTag4_state {dv : List Nat} {s : RState} {r : List Nat × RState}
    (h : readTag4 dv s = some r) : r.2 = adv s 4 := by
  unfold readTag4 at h
  split at h
  · cases h; rfl
  · cases h

end StateLemmas

/-- C2, counterexample: the 3-byte input `0x00 0x00 0x80` assembles to exactly
`0x800000`, which the strict test `xx > 0x800000` does not sign-extend, so
`pcm24` returns `8388608 / 8388607` (just above `+1.0`), not `-1.0` as the
claim states. -/
theorem c2_counterexample :
    pcm24 [0, 0, 128] initState = some (.q (8388608 / 8388607), ⟨3, true, false⟩) ∧
      ¬ ((8388608 : ℚ) / 8388607 = -1) := by
  constructor
  · rfl
  · norm_num

/-- C2 (amended): `pcm24` assembles its three bytes little-endian into `xx`,
subtracts `0x1000000` exactly when `xx` strictly exceeds `0x800000` (giving a
negative value in `[-1, 0)` scaled by `8388608`), and otherwise divides the
non-negative value by `8388607` (giving a value in `[0, 8388608/8388607]`);
`0xFF 0xFF 0x7F` decodes to exactly `+1.0`, and `0x00 0x00 0x80` decodes to
`8388608 / 8388607`, slightly above `+1.0`, not to `-1.0`. -/
theorem c2_pcm24_values (b0 b1 b2 : Nat) (h0 : b0 < 256) (h1 : b1 < 256) (h2 : b2 < 256) :
    ∃ v : ℚ,
      pcm24 [b0, b1, b2] initState = some (.q v, ⟨3, true, false⟩) ∧
      (8388608 < b0 + 256 * b1 + 65536 * b2 →
        v = (((b0 + 256 * b1 + 65536 * b2 : ℕ) : ℚ) - 16777216) / 8388608 ∧
          -1 ≤ v ∧ v < 0) ∧
      (b0 + 256 * b1 + 65536 * b2 ≤ 8388608 →
        v = ((b0 + 256 * b1 + 65536 * b2 : ℕ) : ℚ) / 8388607 ∧
          0 ≤ v ∧ v ≤ 8388608 / 8388607) ∧
      pcm24 [255, 255, 127] initState = some (.q 1, ⟨3, true, false⟩) ∧
      pcm24 [0, 0, 128] initState = some (.q (8388608 / 8388607), ⟨3, true, false⟩) := by
  have hb0 : b0 % 256 = b0 := Nat.mod_eq_of_lt h0
  have hb1 : b1 % 256 = b1 := Nat.mod_eq_of_lt h1
  have hb2 : b2 % 256 = b2 := Nat.mod_eq_of_lt h2
  have hup : b0 + 256 * b1 + 65536 * b2 ≤ 16777215 := by omega
  have hc1 : pcm24 [255, 255, 127] initState = some (.q 1, ⟨3, true, false⟩) := by
    have h : pcm24 [255, 255, 127] initState =
        some (.q (8388607 / 8388607), ⟨3, true, false⟩) := rfl
    have h1 : (8388607 : ℚ) / 8388607 = 1 := by norm_num
    rw [h, h1]
  have hc2 : pcm24 [0, 0, 128] initState =
      some (.q (8388608 / 8388607), ⟨3, true, false⟩) := rfl
  have e0 : pcm24 [b0, b1, b2] initState =
      some (.q (if (if 8388608 < b0 % 256 + 256 * (b1 % 256) + 65536 * (b2 % 256)
            then ((b0 % 256 + 256 * (b1 % 256) + 65536 * (b2 % 256) : ℕ) : ℚ) - 16777216
            else ((b0 % 256 + 256 * (b1 % 256) + 65536 * (b2 % 256) : ℕ) : ℚ)) < 0
          then (if 8388608 < b0 % 256 + 256 * (b1 % 256) + 65536 * (b2 % 256)
            then ((b0 % 256 + 256 * (b1 % 256) + 65536 * (b2 % 256) : ℕ) : ℚ) - 16777216
            else ((b0 % 256 + 256 * (b1 % 256) + 65536 * (b2 % 256) : ℕ) : ℚ)) / 8388608
          else (if 8388608 < b0 % 256 + 256 * (b1 % 256) + 65536 * (b2 % 256)
            then ((b0 % 256 + 256 * (b1 % 256) + 65536 * (b2 % 256) : ℕ) : ℚ) - 16777216
            else ((b0 % 256 + 256 * (b1 % 256) + 65536 * (b2 % 256) : ℕ) : ℚ)) / 8388607),
        ⟨3, true, false⟩) := rfl
  simp only [hb0, hb1, hb2] at e0
  by_cases hX : 8388608 < b0 + 256 * b1 + 65536 * b2
  · have hneg : (((b0 + 256 * b1 + 65536 * b2 : ℕ) : ℚ)) - 16777216 < 0 := by
      have hq : ((b0 + 256 * b1 + 65536 * b2 : ℕ) : ℚ) ≤ 16777215 := by
        exact_mod_cast hup
      linarith
    rw [if_pos hX, if_pos hneg] at e0
    refine ⟨(((b0 + 256 * b1 + 65536 * b2 : ℕ) : ℚ) - 16777216) / 8388608,
      e0, ?_, ?_, hc1, hc2⟩
    · intro _
      refine ⟨rfl, ?_, ?_⟩
      · have hlo : (8388609 : ℚ) ≤ ((b0 + 256 * b1 + 65536 * b2 : ℕ) : ℚ) := by
          exact_mod_cast hX
        rw [le_div_iff₀ (by norm_num : (0 : ℚ) < 8388608)]
        linarith
      · exact div_neg_of_neg_of_pos hneg (by norm_num)
    · intro hle
      omega
  · have hnn : ¬ (((b0 + 256 * b1 + 65536 * b2 : ℕ) : ℚ) < 0) := by
      rw [not_lt]
      exact_mod_cast Nat.zero_le _
    rw [if_neg hX, if_neg hnn] at e0
    refine ⟨((b0 + 256 * b1 + 65536 * b2 : ℕ) : ℚ) / 8388607, e0, ?_, ?_, hc1, hc2⟩
    · intro h
      omega
    · intro hle
      refine ⟨rfl, ?_, ?_⟩
      · exact div_nonneg (Nat.cast_nonneg _) (by norm_num)
      · rw [div_le_div_iff₀ (by norm_num) (by norm_num : (0 : ℚ) < 8388607)]
        have hq : ((b0 + 256 * b1 + 65536 * b2 : ℕ) : ℚ) ≤ 8388608 := by
          exact_mod_cast hle
        nlinarith

/-- Witness for C2: the amended theorem applied at the bytes `0x00 0x00 0x80`. -/
theorem c2_pcm24_values_witness :
    ∃ v : ℚ,
      pcm24 [0, 0, 128] initState = some (.q v, ⟨3, true, false⟩) ∧
      (8388608 < 0 + 256 * 0 + 65536 * 128 →
        v = (((0 + 256 * 0 + 65536 * 128 : ℕ) : ℚ) - 16777216) / 8388608 ∧
          -1 ≤ v ∧ v < 0) ∧
      (0 + 256 * 0 + 65536 * 128 ≤ 8388608 →
        v = ((0 + 256 * 0 + 65536 * 128 : ℕ) : ℚ) / 8388607 ∧
          0 ≤ v ∧ v ≤ 8388608 / 8388607) ∧
      pcm24 [255, 255, 127] initState = some (.q 1, ⟨3, true, false⟩) ∧
      pcm24 [0, 0, 128] initState = some (.q (8388608 / 8388607), ⟨3, true, false⟩) :=
  c2_pcm24_values 0 0 128 (by decide) (by decide) (by decide)

/-- C1, counterexample: a valid minimal 16-bit WAV with `N = 2` channels and
`L = 2` complete frames (8 data bytes, blockSize 4) decodes to channel arrays
of length `floor(8 / 4 / 2) = 1`, not `L = 2` as the claim states: samples
3 and 4 are silently dropped. -/
theorem c1_counterexample :
    decodeSync (minimalWav16 2 2 [1, 0, 2, 0, 3, 0, 4, 0]) none =
      .ok ({ numberOfChannels := 2, length := .fin 1, sampleRate := 44100,
             channelData := [[.q (1 / 32767)], [.q (2 / 32767)]] },
           ⟨48, true, false⟩) ∧
    ¬ (∀ c ∈ [[JSVal.q (1 / 32767)], [JSVal.q (2 / 32767)]], c.length = 2) := by
  constructor
  · rfl
  · decide

/-- C3, counterexample: on `shortFmtWav` (whose `fmt ` chunk declares size 0)
the decode ends with ghost flag `mono = false`: the cursor moved backward.
Concretely, `decodeFormat` enters at offset 20, reads the 16 descriptor bytes
up to offset 36, then `skip(0 - 16)` returns the cursor to offset 20. -/
theorem c3_counterexample :
    decodeSync shortFmtWav none = .error (.oobRead, ⟨44128, false, true⟩) ∧
    decodeFormat shortFmtWav 0 ⟨20, true, false⟩ =
      .ok ({ formatId := 1, floatingPoint := false, numberOfChannels := 2,
             sampleRate := 44100, byteRate := 44100, blockSize := 4, bitDepth := 16 },
           ⟨20, false, true⟩) := by
  constructor
  · rfl
  · rfl

/-- C4, counterexample: on `badBlockWav` (blockSize 1, bitDepth 16, declared
`data` size 100 with only 4 bytes remaining) the clamped size is 4 but the
frame length is `floor(4 / 1 / 1) = 4`, so the third 16-bit sample read starts
at offset 48, the end of the 48-byte buffer, and decoding fails with the
out-of-bounds RangeError the claim says cannot happen. -/
theorem c4_counterexample :
    decodeSync badBlockWav none = .error (.oobRead, ⟨48, true, false⟩) ∧
    badBlockWav.length = 48 := by
  constructor
  · rfl
  · rfl

/-- C5: a `fmt ` chunk whose 2-byte formatId is not a key of `formats` makes
`decodeSync` fail with `UnsupportedFormat` immediately after the two formatId
bytes: the final offset is 22 (the fmt body starts at 20), so none of the
remaining fmt bytes were consumed, no `data` chunk was read, and no
AudioData is returned.  The declared fmt size and all following bytes are
arbitrary. -/
theorem c5_unsupported_format_stops (a b c d s0 s1 s2 s3 i0 i1 : Nat) (rest : List Nat)
    (hi0 : i0 < 256) (hi1 : i1 < 256)
    (hno : formatsDefined (i0 + 256 * i1) = false) :
    decodeSync (82 :: 73 :: 70 :: 70 :: a :: b :: c :: d :: 87 :: 65 :: 86 :: 69 ::
        102 :: 109 :: 116 :: 32 :: s0 :: s1 :: s2 :: s3 :: i0 :: i1 :: rest) none =
      .error (.unsupportedFormat (i0 + 256 * i1), ⟨22, true, false⟩) := by
  have hx : i0 % 256 + 256 * (i1 % 256) = i0 + 256 * i1 := by
    rw [Nat.mod_eq_of_lt hi0, Nat.mod_eq_of_lt hi1]
  have e2 : decodeFormat (82 :: 73 :: 70 :: 70 :: a :: b :: c :: d :: 87 :: 65 :: 86 :: 69 ::
      102 :: 109 :: 116 :: 32 :: s0 :: s1 :: s2 :: s3 :: i0 :: i1 :: rest)
      (s0 % 256 + 256 * (s1 % 256) + 65536 * (s2 % 256) + 16777216 * (s3 % 256))
      ⟨20, true, false⟩ =
      .error (.unsupportedFormat (i0 + 256 * i1), ⟨22, true, false⟩) := by
    have h16 : readU16 (82 :: 73 :: 70 :: 70 :: a :: b :: c :: d :: 87 :: 65 :: 86 :: 69 ::
        102 :: 109 :: 116 :: 32 :: s0 :: s1 :: s2 :: s3 :: i0 :: i1 :: rest)
        ⟨20, true, false⟩ = some (i0 + 256 * i1, ⟨22, true, false⟩) := by
      rw [← hx]
      exact rfl
    unfold decodeFormat
    rw [h16]
    simp [hno]
  calc decodeSync (82 :: 73 :: 70 :: 70 :: a :: b :: c :: d :: 87 :: 65 :: 86 :: 69 ::
        102 :: 109 :: 116 :: 32 :: s0 :: s1 :: s2 :: s3 :: i0 :: i1 :: rest) none
      = (match decodeFormat (82 :: 73 :: 70 :: 70 :: a :: b :: c :: d :: 87 :: 65 :: 86 :: 69 ::
          102 :: 109 :: 116 :: 32 :: s0 :: s1 :: s2 :: s3 :: i0 :: i1 :: rest)
          (s0 % 256 + 256 * (s1 % 256) + 65536 * (s2 % 256) + 16777216 * (s3 % 256))
          ⟨20, true, false⟩ with
         | .error e => .error e
         | .ok (f, st) =>
            walk (82 :: 73 :: 70 :: 70 :: a :: b :: c :: d :: 87 :: 65 :: 86 :: 69 ::
              102 :: 109 :: 116 :: 32 :: s0 :: s1 :: s2 :: s3 :: i0 :: i1 :: rest) {}
              (82 :: 73 :: 70 :: 70 :: a :: b :: c :: d :: 87 :: 65 :: 86 :: 69 ::
                102 :: 109 :: 116 :: 32 :: s0 :: s1 :: s2 :: s3 :: i0 :: i1 :: rest).length
              (some f) st) := rfl
    _ = .error (.unsupportedFormat (i0 + 256 * i1), ⟨22, true, false⟩) := by rw [e2]

/-- Witness for C5: an ADPCM formatId (0x0002) on an otherwise well-formed
header stops the decode at offset 22. -/
theorem c5_unsupported_format_stops_witness :
    decodeSync (82 :: 73 :: 70 :: 70 :: 0 :: 0 :: 0 :: 0 :: 87 :: 65 :: 86 :: 69 ::
        102 :: 109 :: 116 :: 32 :: 16 :: 0 :: 0 :: 0 :: 2 :: 0 :: []) none =
      .error (.unsupportedFormat (2 + 256 * 0), ⟨22, true, false⟩) :=
  c5_unsupported_format_stops 0 0 0 0 16 0 0 0 2 0 [] (by decide) (by decide) (by decide)

/-- C7: any chunk whose tag is neither `fmt ` nor `data` is skipped by
advancing the cursor by exactly its declared `chunkSize` bytes past the 8-byte
header — no odd-size padding byte is added and the ghost flags are untouched —
after which the walk continues with the next chunk header at that position. -/
theorem c7_unknown_chunk_skip (dv : List Nat) (opts : DecodeOptions) (fuel : Nat)
    (format? : Option Format) (s : RState) (tag : List Nat) (size : Nat)
    (s1 s2 : RState)
    (htag : readTag4 dv s = some (tag, s1)) (hsz : readU32 dv s1 = some (size, s2))
    (hfmt : tag ≠ fmtTag) (hdata : tag ≠ dataTag) :
    walk dv opts (fuel + 1) format? s =
      walk dv opts fuel format? ⟨s.pos + 8 + size, s.mono, s.shortFmt⟩ := by
  have h1 : s1 = adv s 4 := by
    have := readTag4_state htag
    simpa using this
  have h2 : s2 = adv s1 4 := by
    have := readU32_state hsz
    simpa using this
  have hst : skipBy s2 (size : Int) = ⟨s.pos + 8 + size, s.mono, s.shortFmt⟩ := by
    subst h2
    subst h1
    simp only [skipBy, adv]
    have hnn : decide (0 ≤ (size : Int)) = true := by
      simp [Int.natCast_nonneg]
    rw [hnn]
    simp [Bool.and_true]
    omega
  simp only [walk, htag, hsz]
  rw [if_neg hfmt, if_neg hdata, hst]

/-- Witness for C7: a `JUNK` chunk of odd declared size 3 is skipped by
exactly 3 bytes. -/
theorem c7_unknown_chunk_skip_witness :
    walk [74, 85, 78, 75, 3, 0, 0, 0] {} 1 none ⟨0, true, false⟩ =
      walk [74, 85, 78, 75, 3, 0, 0, 0] {} 0 none
        ⟨(⟨0, true, false⟩ : RState).pos + 8 + 3, true, false⟩ :=
  c7_unknown_chunk_skip [74, 85, 78, 75, 3, 0, 0, 0] {} 0 none ⟨0, true, false⟩
    [74, 85, 78, 75] 3 ⟨4, true, false⟩ ⟨8, true, false⟩ rfl rfl
    (by decide) (by decide)

section OptsCongr

/-- The only use `readPCM` makes of the options object is the truthiness of
`opts.symmetric`. -/
theorem readPCM_opts_congr (dv : List Nat) (cd : List (List JSVal)) (len : JSLen)
    (fmt : Format) {o1 o2 : DecodeOptions}
    (h : o1.symmetric.getD false = o2.symmetric.getD false) (s : RState) :
    readPCM dv cd len fmt o1 s = readPCM dv cd len fmt o2 s := by
  unfold readPCM
  rw [h]

/-- `decodeData` depends on the options only through `readPCM`. -/
theorem decodeData_opts_congr (dv : List Nat) (declared : Nat) (format? : Option Format)
    {o1 o2 : DecodeOptions}
    (h : o1.symmetric.getD false = o2.symmetric.getD false) (s : RState) :
    decodeData dv declared format? o1 s = decodeData dv declared format? o2 s := by
  unfold decodeData
  cases format? with
  | none => rfl
  | some fmt =>
    simp only
    rw [readPCM_opts_congr dv _ _ _ h]

/-- The chunk walk depends on the options only through the truthiness of
`symmetric`. -/
theorem walk_opts_congr (dv : List Nat) {o1 o2 : DecodeOptions}
    (h : o1.symmetric.getD false = o2.symmetric.getD false) :
    ∀ (fuel : Nat) (format? : Option Format) (s : RState),
      walk dv o1 fuel format? s = walk dv o2 fuel format? s := by
  intro fuel
  induction fuel with
  | zero => intro _ _; rfl
  | succ fuel ih =>
    intro format? s
    simp only [walk]
    cases htag : readTag4 dv s with
    | none => rfl
    | some r =>
      obtain ⟨tag, s1⟩ := r
      simp only
      cases hsz : readU32 dv s1 with
      | none => rfl
      | some r2 =>
        obtain ⟨size, s2⟩ := r2
        simp only
        by_cases h1 : tag = fmtTag
        · simp only [if_pos h1]
          cases hdf : decodeFormat dv size s2 with
          | error e => rfl
          | ok r3 =>
            obtain ⟨f, s3⟩ := r3
            exact ih _ _
        · by_cases h2 : tag = dataTag
          · simp only [if_neg h1, if_pos h2]
            exact decodeData_opts_congr dv size format? h s2
          · simp only [if_neg h1, if_neg h2]
            exact ih _ _

end OptsCongr

/-- C10: `decodeSync` is deterministic and its result depends only on the
buffer bytes and the truthiness of the `symmetric` option: any two option
values with the same effective `symmetric` flag (absent options default to
`false`) give structurally identical results, success or error. -/
theorem c10_deterministic (dv : List Nat) (o1 o2 : Option DecodeOptions)
    (h : (o1.getD {}).symmetric.getD false = (o2.getD {}).symmetric.getD false) :
    decodeSync dv o1 = decodeSync dv o2 := by
  unfold decodeSync
  cases readTag4 dv initState with
  | none => rfl
  | some r =>
    obtain ⟨t1, s1⟩ := r
    simp only
    by_cases h1 : t1 ≠ riffTag
    · simp only [if_pos h1]
    · simp only [if_neg h1]
      cases readU32 dv s1 with
      | none => rfl
      | some r2 =>
        obtain ⟨x, s2⟩ := r2
        simp only
        cases readTag4 dv s2 with
        | none => rfl
        | some r3 =>
          obtain ⟨t2, s3⟩ := r3
          simp only
          by_cases h2 : t2 ≠ waveTag
          · simp only [if_pos h2]
          · simp only [if_neg h2]
            exact walk_opts_congr dv h _ _ _

/-- Witness for C10: an explicit `symmetric := some false` and an absent
options object give identical results. -/
theorem c10_deterministic_witness :
    decodeSync shortFmtWav none = decodeSync shortFmtWav (some ⟨some false⟩) :=
  c10_deterministic shortFmtWav none (some ⟨some false⟩) rfl

section FloatCongr

/-- A 32-bit IEEE-float mono WAV file holding the single sample `1.0`
(bytes `0x3F800000` little-endian). -/
def floatWav : List Nat :=
  [82, 73, 70, 70, 0, 0, 0, 0, 87, 65, 86, 69,
   102, 109, 116, 32, 16, 0, 0, 0,
   3, 0, 1, 0, 68, 172, 0, 0, 0, 0, 0, 0, 4, 0, 32, 0,
   100, 97, 116, 97, 4, 0, 0, 0, 0, 0, 128, 63]

/-- The `floatingPoint` flag of a parsed format is exactly `formatId == 3`. -/
theorem decodeFormat_float {dv : List Nat} {cs : Nat} {s : RState}
    {r : Format × RState} (h : decodeFormat dv cs s = .ok r) :
    r.1.floatingPoint = (r.1.formatId == 3) := by
  unfold decodeFormat at h
  cases h1 : readU16 dv s with
  | none => rw [h1] at h; cases h
  | some p1 =>
    obtain ⟨fid, t1⟩ := p1
    rw [h1] at h
    simp only at h
    by_cases hd : formatsDefined fid = false
    · rw [if_pos hd] at h; cases h
    · rw [if_neg hd] at h
      cases h2 : readU16 dv t1 with
      | none => rw [h2] at h; cases h
      | some p2 =>
        obtain ⟨nch, t2⟩ := p2
        rw [h2] at h
        simp only at h
        cases h3 : readU32 dv t2 with
        | none => rw [h3] at h; cases h
        | some p3 =>
          obtain ⟨sr, t3⟩ := p3
          rw [h3] at h
          simp only at h
          cases h4 : readU32 dv t3 with
          | none => rw [h4] at h; cases h
          | some p4 =>
            obtain ⟨br, t4⟩ := p4
            rw [h4] at h
            simp only at h
            cases h5 : readU16 dv t4 with
            | none => rw [h5] at h; cases h
            | some p5 =>
              obtain ⟨bs, t5⟩ := p5
              rw [h5] at h
              simp only at h
              cases h6 : readU16 dv t5 with
              | none => rw [h6] at h; cases h
              | some p6 =>
                obtain ⟨bd, t6⟩ := p6
                rw [h6] at h
                simp only at h
                cases h
                rfl

/-- In the floating-point branch the dispatch never looks at `symmetric`. -/
theorem selectPcm_float (d : Nat) (x y : Bool) :
    selectPcm d true x = selectPcm d true y := rfl

/-- For a floating-point format, `readPCM` ignores the options entirely. -/
theorem readPCM_float_congr (dv : List Nat) (cd : List (List JSVal)) (len : JSLen)
    {fmt : Format} (hf : fmt.floatingPoint = true)
    (o1 o2 : DecodeOptions) (s : RState) :
    readPCM dv cd len fmt o1 s = readPCM dv cd len fmt o2 s := by
  unfold readPCM
  rw [hf, selectPcm_float fmt.bitDepth (o1.symmetric.getD false) (o2.symmetric.getD false)]

/-- For a floating-point format, `decodeData` ignores the options entirely. -/
theorem decodeData_float_congr (dv : List Nat) (declared : Nat)
    {fmt : Format} (hf : fmt.floatingPoint = true)
    (o1 o2 : DecodeOptions) (s : RState) :
    decodeData dv declared (some fmt) o1 s = decodeData dv declared (some fmt) o2 s := by
  unfold decodeData
  simp only
  rw [readPCM_float_congr dv _ _ hf o1 o2]

/-- When every `fmt ` chunk ahead carries formatId 3 and the format in hand
(if any) is floating point, the walk ignores the options entirely. -/
theorem walk_float_congr (dv : List Nat) (o1 o2 : DecodeOptions) :
    ∀ (fuel : Nat) (format? : Option Format) (s : RState),
      fmtAllFloat dv fuel s = true →
      (∀ f, format? = some f → f.floatingPoint = true) →
      walk dv o1 fuel format? s = walk dv o2 fuel format? s := by
  intro fuel
  induction fuel with
  | zero => intros; rfl
  | succ fuel ih =>
    intro format? s hall hcur
    simp only [walk]
    simp only [fmtAllFloat] at hall
    cases htag : readTag4 dv s with
    | none => rfl
    | some r =>
      obtain ⟨tag, s1⟩ := r
      rw [htag] at hall
      simp only at hall ⊢
      cases hsz : readU32 dv s1 with
      | none => rfl
      | some r2 =>
        obtain ⟨size, s2⟩ := r2
        rw [hsz] at hall
        simp only at hall ⊢
        by_cases h1 : tag = fmtTag
        · rw [if_pos h1] at hall
          simp only [if_pos h1]
          cases hdf : decodeFormat dv size s2 with
          | error e => rfl
          | ok r3 =>
            obtain ⟨f, s3⟩ := r3
            rw [hdf] at hall
            simp only [Bool.and_eq_true, beq_iff_eq] at hall
            refine ih (some f) s3 hall.2 ?_
            intro f' hf'
            cases hf'
            have hflt := decodeFormat_float hdf
            rw [hall.1] at hflt
            simpa using hflt
        · by_cases h2 : tag = dataTag
          · simp only [if_neg h1, if_pos h2]
            cases format? with
            | none => rfl
            | some f =>
              exact decodeData_float_congr dv size (hcur f rfl) o1 o2 s2
          · rw [if_neg h1, if_neg h2] at hall
            simp only [if_neg h1, if_neg h2]
            exact ih format? _ hall hcur

end FloatCongr

/-- C8: for every buffer all of whose decoded `fmt ` chunks declare the
IEEE-float formatId 3, the `symmetric` option has no effect: any two option
values give identical results from `decodeSync` — same sample rate, same
channel arrays, same sample values, or the same error. -/
theorem c8_float_ignores_symmetric (dv : List Nat) (o1 o2 : Option DecodeOptions)
    (hall : fmtAllFloat dv (dv.length + 1) ⟨12, true, false⟩ = true) :
    decodeSync dv o1 = decodeSync dv o2 := by
  unfold decodeSync
  cases htag : readTag4 dv initState with
  | none => rfl
  | some r =>
    obtain ⟨t1, s1⟩ := r
    simp only
    by_cases h1 : t1 ≠ riffTag
    · simp only [if_pos h1]
    · simp only [if_neg h1]
      cases hsz : readU32 dv s1 with
      | none => rfl
      | some r2 =>
        obtain ⟨x, s2⟩ := r2
        simp only
        cases htag2 : readTag4 dv s2 with
        | none => rfl
        | some r3 =>
          obtain ⟨t2, s3⟩ := r3
          simp only
          by_cases h2 : t2 ≠ waveTag
          · simp only [if_pos h2]
          · simp only [if_neg h2]
            have h3 : s3 = ⟨12, true, false⟩ := by
              have e1 : s1 = adv initState 4 := by
                have := readTag4_state htag
                simpa using this
              have e2 : s2 = adv s1 4 := by
                have := readU32_state hsz
                simpa using this
              have e3 : s3 = adv s2 4 := by
                have := readTag4_state htag2
                simpa using this
              rw [e3, e2, e1]
              rfl
            rw [h3]
            exact walk_float_congr dv _ _ _ none ⟨12, true, false⟩ hall
              (fun f hf => by cases hf)

/-- Witness for C8: a 32-bit float WAV decodes identically with
`symmetric := true` and `symmetric := false`. -/
theorem c8_float_ignores_symmetric_witness :
    decodeSync floatWav (some ⟨some true⟩) = decodeSync floatWav (some ⟨some false⟩) :=
  c8_float_ignores_symmetric floatWav (some ⟨some true⟩) (some ⟨some false⟩) (by decide)

section Termination

/-- With a non-zero block size and channel count the frame length is finite. -/
theorem jsFrameLength_fin {c : Int} {b n : Nat} (hb : 1 ≤ b) (hn : 1 ≤ n) :
    jsFrameLength c b n = .fin (Int.fdiv c (b * n)) := by
  unfold jsFrameLength
  rw [if_neg]
  omega

/-- With zero channels and a positive clamped size the frame length is
`Infinity`. -/
theorem jsFrameLength_posInf (c : Int) (b : Nat) (hc : 0 < c) :
    jsFrameLength c b 0 = .posInf := by
  unfold jsFrameLength
  rw [if_pos (Or.inr rfl), if_pos hc]

/-- With zero channels and an infinite bound the loop never finishes: every
iteration passes the `i < Infinity` test, reads no samples, and increments
`i`, so no amount of fuel completes it. -/
theorem loopFuel_posInf_none (rd : PcmFn) (dv : List Nat)
    (cd : List (List JSVal)) (s : RState) (fuel i : Nat) :
    loopFuel rd dv 0 .posInf fuel i cd s = none := by
  induction fuel generalizing i cd s with
  | zero => rfl
  | succ fuel ih =>
    simp only [loopFuel, jsLtLen, if_true]
    exact ih _ _ _

/-- With a finite bound `k` the loop finishes (normally or by throwing) as
soon as the fuel covers the remaining iterations. -/
theorem loopFuel_fin_isSome (rd : PcmFn) (dv : List Nat) (n : Nat) (k : ℤ) :
    ∀ (fuel i : Nat) (cd : List (List JSVal)) (s : RState),
      1 ≤ fuel → k.toNat + 1 ≤ i + fuel →
      (loopFuel rd dv n (.fin k) fuel i cd s).isSome = true := by
  intro fuel
  induction fuel with
  | zero => intro i cd s h1 _; omega
  | succ fuel ih =>
    intro i cd s _ hle
    simp only [loopFuel]
    by_cases ht : jsLtLen i (.fin k) = true
    · rw [if_pos ht]
      have hik : (i : Int) < k := by
        simpa [jsLtLen] using ht
      cases hrf : readFrame rd dv i n 0 cd s with
      | error e => simp
      | ok p =>
        obtain ⟨cd1, s1⟩ := p
        simp only
        exact ih (i + 1) cd1 s1 (by omega) (by omega)
    · rw [if_neg ht]
      simp

/-- The inner channel loop can only throw the out-of-bounds RangeError. -/
theorem readFrame_error {rd : PcmFn} {dv : List Nat} {i : Nat} :
    ∀ {chs ch : Nat} {cd : List (List JSVal)} {s : RState} {e : DecodeError × RState},
      readFrame rd dv i chs ch cd s = .error e → e.1 = .oobRead := by
  intro chs
  induction chs with
  | zero => intro ch cd s e h; cases h
  | succ chs ih =>
    intro ch cd s e h
    unfold readFrame at h
    cases hr : rd dv s with
    | none => rw [hr] at h; cases h; rfl
    | some p =>
      obtain ⟨v, s1⟩ := p
      rw [hr] at h
      exact ih h

/-- The sample loop can only throw the out-of-bounds RangeError. -/
theorem pcmLoop_error {rd : PcmFn} {dv : List Nat} {n : Nat} :
    ∀ {it i : Nat} {cd : List (List JSVal)} {s : RState} {e : DecodeError × RState},
      pcmLoop rd dv n it i cd s = .error e → e.1 = .oobRead := by
  intro it
  induction it with
  | zero => intro i cd s e h; cases h
  | succ it ih =>
    intro i cd s e h
    unfold pcmLoop at h
    cases hrf : readFrame rd dv i n 0 cd s with
    | error e1 =>
      rw [hrf] at h
      cases h
      exact readFrame_error hrf
    | ok p =>
      obtain ⟨cd1, s1⟩ := p
      rw [hrf] at h
      exact ih h

end Termination

/-- C9: the data-chunk decode terminates whenever the parsed format has
`numberOfChannels ≥ 1` and `blockSize ≥ 1`, because the frame length is then
the finite integer `fdiv clamped (blockSize * numberOfChannels)` bounding the
loop (which then finishes with enough fuel, and `decodeData` never marks
divergence); and when `numberOfChannels = 0` with a positive clamped chunk
size the frame length is `Infinity`, the loop completes under no amount of
fuel, and `decodeData` reaches exactly that non-terminating loop whenever the
dispatch found a decode method. -/
theorem c9_loop_termination :
    (∀ (c : Int) (b n : Nat), 1 ≤ b → 1 ≤ n → ∃ k : ℤ, jsFrameLength c b n = .fin k) ∧
    (∀ (rd : PcmFn) (dv : List Nat) (n : Nat) (k : ℤ) (cd : List (List JSVal)) (s : RState),
      ∃ fuel : Nat, (loopFuel rd dv n (.fin k) fuel 0 cd s).isSome = true) ∧
    (∀ (dv : List Nat) (declared : Nat) (fmt : Format) (opts : DecodeOptions) (s : RState),
      1 ≤ fmt.numberOfChannels → 1 ≤ fmt.blockSize →
      ∀ s1 : RState, decodeData dv declared (some fmt) opts s ≠ .error (.diverges, s1)) ∧
    (∀ (c : Int) (b : Nat), 0 < c → jsFrameLength c b 0 = .posInf) ∧
    (∀ (rd : PcmFn) (dv : List Nat) (cd : List (List JSVal)) (s : RState) (fuel i : Nat),
      loopFuel rd dv 0 .posInf fuel i cd s = none) ∧
    (∀ (dv : List Nat) (declared : Nat) (fmt : Format) (opts : DecodeOptions) (s : RState)
      (rd : PcmFn),
      fmt.numberOfChannels = 0 →
      selectPcm fmt.bitDepth fmt.floatingPoint (opts.symmetric.getD false) = some rd →
      0 < min (declared : Int) ((dv.length : Int) - s.pos) →
      decodeData dv declared (some fmt) opts s = .error (.diverges, s)) := by
  refine ⟨?_, ?_, ?_, ?_, ?_, ?_⟩
  · intro c b n hb hn
    exact ⟨Int.fdiv c (b * n), jsFrameLength_fin hb hn⟩
  · intro rd dv n k cd s
    exact ⟨k.toNat + 1, loopFuel_fin_isSome rd dv n k (k.toNat + 1) 0 cd s (by omega) (by omega)⟩
  · intro dv declared fmt opts s hn hb s1 hcontra
    unfold decodeData at hcontra
    simp only at hcontra
    rw [jsFrameLength_fin hb hn] at hcontra
    by_cases harr : fmt.numberOfChannels ≠ 0 ∧
        arrayLen (.fin (Int.fdiv (min (declared : Int) ((dv.length : Int) - s.pos))
          (fmt.blockSize * fmt.numberOfChannels))) = none
    · rw [if_pos harr] at hcontra
      cases hcontra
    · rw [if_neg harr] at hcontra
      unfold readPCM at hcontra
      cases hsel : selectPcm fmt.bitDepth fmt.floatingPoint (opts.symmetric.getD false) with
      | none => rw [hsel] at hcontra; cases hcontra
      | some rd =>
        rw [hsel] at hcontra
        simp only [numIter] at hcontra
        cases hloop : pcmLoop rd dv fmt.numberOfChannels
            (Int.toNat (Int.fdiv (min (declared : Int) ((dv.length : Int) - s.pos))
              (fmt.blockSize * fmt.numberOfChannels))) 0
            (initCd fmt.numberOfChannels
              ((arrayLen (.fin (Int.fdiv (min (declared : Int) ((dv.length : Int) - s.pos))
                (fmt.blockSize * fmt.numberOfChannels)))).getD 0)) s with
        | error e =>
          rw [hloop] at hcontra
          cases hcontra
          have := pcmLoop_error hloop
          simp at this
        | ok p =>
          obtain ⟨cd, s2⟩ := p
          rw [hloop] at hcontra
          cases hcontra
  · intro c b hc
    exact jsFrameLength_posInf c b hc
  · intro rd dv cd s fuel i
    exact loopFuel_posInf_none rd dv cd s fuel i
  · intro dv declared fmt opts s rd h0 hsel hpos
    unfold decodeData
    simp only
    rw [h0, jsFrameLength_posInf _ _ hpos]
    simp only [ne_eq, not_true_eq_false, false_and, if_false]
    unfold readPCM
    rw [h0, hsel]
    rfl

/-- Witness for C9: each conjunct applied at concrete inputs — a 16-bit mono
format with 4 clamped bytes on the finite side, and a zero-channel 16-bit
format with 2 data bytes on the divergent side. -/
theorem c9_loop_termination_witness :
    (∃ k : ℤ, jsFrameLength 4 2 1 = .fin k) ∧
    (∃ fuel : Nat, (loopFuel pcm16 [0, 0, 0, 0] 1 (.fin 2) fuel 0
      (initCd 1 2) initState).isSome = true) ∧
    (∀ s1 : RState, decodeData [0, 0, 0, 0] 4
        (some { formatId := 1, floatingPoint := false, numberOfChannels := 1,
                sampleRate := 8000, byteRate := 16000, blockSize := 2, bitDepth := 16 })
        {} initState ≠ .error (.diverges, s1)) ∧
    (jsFrameLength 2 1 0 = .posInf) ∧
    (loopFuel pcm8 [0, 0] 0 .posInf 5 0 [] initState = none) ∧
    (decodeData [0, 0] 2
        (some { formatId := 1, floatingPoint := false, numberOfChannels := 0,
                sampleRate := 8000, byteRate := 16000, blockSize := 1, bitDepth := 16 })
        {} initState = .error (.diverges, initState)) := by
  refine ⟨?_, ?_, ?_, ?_, ?_, ?_⟩
  · exact c9_loop_termination.1 4 2 1 (by decide) (by decide)
  · exact c9_loop_termination.2.1 pcm16 [0, 0, 0, 0] 1 2 (initCd 1 2) initState
  · exact c9_loop_termination.2.2.1 [0, 0, 0, 0] 4 _ {} initState (by decide) (by decide)
  · exact c9_loop_termination.2.2.2.1 2 1 (by decide)
  · exact c9_loop_termination.2.2.2.2.1 pcm8 [0, 0] [] initState 5 0
  · exact c9_loop_termination.2.2.2.2.2 [0, 0] 2 _ {} initState pcm16 rfl rfl (by decide)

section PcmSpecs

/-- Specification of a sample decode method of byte width `w`: on success it
advances the position by exactly `w` bytes (leaving the ghost fields
untouched), and it succeeds whenever `w` bytes remain at a non-negative
position. -/
def PcmSpec (rd : PcmFn) (w : Nat) : Prop :=
  (∀ (dv : List Nat) (s : RState) (r : JSVal × RState), rd dv s = some r → r.2 = adv s w) ∧
  (∀ (dv : List Nat) (s : RState), 0 ≤ s.pos → s.pos + (w : Int) ≤ (dv.length : Int) →
    (rd dv s).isSome = true)

/-- A byte read succeeds exactly on in-range positions. -/
theorem getByte_isSome {l : List Nat} {p : Int} (h0 : 0 ≤ p)
    (h1 : p < (l.length : Int)) : (getByte l p).isSome = true := by
  unfold getByte
  rw [if_neg (by omega)]
  have hlt : p.toNat < l.length := by omega
  rw [List.get?_eq_get hlt]
  rfl

theorem pcm8_spec : PcmSpec pcm8 1 := by
  constructor
  · intro dv s r h
    unfold pcm8 at h
    cases hg : getByte dv s.pos with
    | none => rw [hg] at h; cases h
    | some b =>
      rw [hg] at h
      simp only [Option.map_some'] at h
      cases h
      rfl
  · intro dv s h0 h1
    unfold pcm8
    obtain ⟨b, hb⟩ := Option.isSome_iff_exists.mp (getByte_isSome (l := dv) (p := s.pos) h0 (by omega))
    rw [hb]
    rfl

theorem pcm8s_spec : PcmSpec pcm8s 1 := by
  constructor
  · intro dv s r h
    unfold pcm8s at h
    cases hg : getByte dv s.pos with
    | none => rw [hg] at h; cases h
    | some b =>
      rw [hg] at h
      simp only [Option.map_some'] at h
      cases h
      rfl
  · intro dv s h0 h1
    unfold pcm8s
    obtain ⟨b, hb⟩ := Option.isSome_iff_exists.mp (getByte_isSome (l := dv) (p := s.pos) h0 (by omega))
    rw [hb]
    rfl

theorem pcm16_spec : PcmSpec pcm16 2 := by
  constructor
  · intro dv s r h
    unfold pcm16 at h
    split at h
    · cases h; rfl
    · cases h
  · intro dv s h0 h1
    unfold pcm16
    obtain ⟨b0, hb0⟩ := Option.isSome_iff_exists.mp (getByte_isSome (l := dv) (p := s.pos) h0 (by omega))
    obtain ⟨b1, hb1⟩ := Option.isSome_iff_exists.mp
      (getByte_isSome (l := dv) (p := s.pos + 1) (by omega) (by omega))
    rw [hb0, hb1]
    rfl

theorem pcm16s_spec : PcmSpec pcm16s 2 := by
  constructor
  · intro dv s r h
    unfold pcm16s at h
    split at h
    · cases h; rfl
    · cases h
  · intro dv s h0 h1
    unfold pcm16s
    obtain ⟨b0, hb0⟩ := Option.isSome_iff_exists.mp (getByte_isSome (l := dv) (p := s.pos) h0 (by omega))
    obtain ⟨b1, hb1⟩ := Option.isSome_iff_exists.mp
      (getByte_isSome (l := dv) (p := s.pos + 1) (by omega) (by omega))
    rw [hb0, hb1]
    rfl

theorem pcm24_spec : PcmSpec pcm24 3 := by
  constructor
  · intro dv s r h
    unfold pcm24 at h
    split at h
    · cases h; rfl
    · cases h
  · intro dv s h0 h1
    unfold pcm24
    obtain ⟨b0, hb0⟩ := Option.isSome_iff_exists.mp (getByte_isSome (l := dv) (p := s.pos) h0 (by omega))
    obtain ⟨b1, hb1⟩ := Option.isSome_iff_exists.mp
      (getByte_isSome (l := dv) (p := s.pos + 1) (by omega) (by omega))
    obtain ⟨b2, hb2⟩ := Option.isSome_iff_exists.mp
      (getByte_isSome (l := dv) (p := s.pos + 2) (by omega) (by omega))
    rw [hb0, hb1, hb2]
    rfl

theorem pcm24s_spec : PcmSpec pcm24s 3 := by
  constructor
  · intro dv s r h
    unfold pcm24s at h
    split at h
    · cases h; rfl
    · cases h
  · intro dv s h0 h1
    unfold pcm24s
    obtain ⟨b0, hb0⟩ := Option.isSome_iff_exists.mp (getByte_isSome (l := dv) (p := s.pos) h0 (by omega))
    obtain ⟨b1, hb1⟩ := Option.isSome_iff_exists.mp
      (getByte_isSome (l := dv) (p := s.pos + 1) (by omega) (by omega))
    obtain ⟨b2, hb2⟩ := Option.isSome_iff_exists.mp
      (getByte_isSome (l := dv) (p := s.pos + 2) (by omega) (by omega))
    rw [hb0, hb1, hb2]
    rfl

theorem pcm32_spec : PcmSpec pcm32 4 := by
  constructor
  · intro dv s r h
    unfold pcm32 at h
    split at h
    · cases h; rfl
    · cases h
  · intro dv s h0 h1
    unfold pcm32
    obtain ⟨b0, hb0⟩ := Option.isSome_iff_exists.mp (getByte_isSome (l := dv) (p := s.pos) h0 (by omega))
    obtain ⟨b1, hb1⟩ := Option.isSome_iff_exists.mp
      (getByte_isSome (l := dv) (p := s.pos + 1) (by omega) (by omega))
    obtain ⟨b2, hb2⟩ := Option.isSome_iff_exists.mp
      (getByte_isSome (l := dv) (p := s.pos + 2) (by omega) (by omega))
    obtain ⟨b3, hb3⟩ := Option.isSome_iff_exists.mp
      (getByte_isSome (l := dv) (p := s.pos + 3) (by omega) (by omega))
    rw [hb0, hb1, hb2, hb3]
    rfl

theorem pcm32s_spec : PcmSpec pcm32s 4 := by
  constructor
  · intro dv s r h
    unfold pcm32s at h
    split at h
    · cases h; rfl
    · cases h
  · intro dv s h0 h1
    unfold pcm32s
    obtain ⟨b0, hb0⟩ := Option.isSome_iff_exists.mp (getByte_isSome (l := dv) (p := s.pos) h0 (by omega))
    obtain ⟨b1, hb1⟩ := Option.isSome_iff_exists.mp
      (getByte_isSome (l := dv) (p := s.pos + 1) (by omega) (by omega))
    obtain ⟨b2, hb2⟩ := Option.isSome_iff_exists.mp
      (getByte_isSome (l := dv) (p := s.pos + 2) (by omega) (by omega))
    obtain ⟨b3, hb3⟩ := Option.isSome_iff_exists.mp
      (getByte_isSome (l := dv) (p := s.pos + 3) (by omega) (by omega))
    rw [hb0, hb1, hb2, hb3]
    rfl

theorem pcm32f_spec : PcmSpec pcm32f 4 := by
  constructor
  · intro dv s r h
    unfold pcm32f at h
    split at h
    · cases h; rfl
    · cases h
  · intro dv s h0 h1
    unfold pcm32f
    obtain ⟨b0, hb0⟩ := Option.isSome_iff_exists.mp (getByte_isSome (l := dv) (p := s.pos) h0 (by omega))
    obtain ⟨b1, hb1⟩ := Option.isSome_iff_exists.mp
      (getByte_isSome (l := dv) (p := s.pos + 1) (by omega) (by omega))
    obtain ⟨b2, hb2⟩ := Option.isSome_iff_exists.mp
      (getByte_isSome (l := dv) (p := s.pos + 2) (by omega) (by omega))
    obtain ⟨b3, hb3⟩ := Option.isSome_iff_exists.mp
      (getByte_isSome (l := dv) (p := s.pos + 3) (by omega) (by omega))
    rw [hb0, hb1, hb2, hb3]
    rfl

theorem pcm64f_spec : PcmSpec pcm64f 8 := by
  constructor
  · intro dv s r h
    unfold pcm64f at h
    split at h
    · cases h; rfl
    · cases h
  · intro dv s h0 h1
    unfold pcm64f
    obtain ⟨b0, hb0⟩ := Option.isSome_iff_exists.mp (getByte_isSome (l := dv) (p := s.pos) h0 (by omega))
    obtain ⟨b1, hb1⟩ := Option.isSome_iff_exists.mp
      (getByte_isSome (l := dv) (p := s.pos + 1) (by omega) (by omega))
    obtain ⟨b2, hb2⟩ := Option.isSome_iff_exists.mp
      (getByte_isSome (l := dv) (p := s.pos + 2) (by omega) (by omega))
    obtain ⟨b3, hb3⟩ := Option.isSome_iff_exists.mp
      (getByte_isSome (l := dv) (p := s.pos + 3) (by omega) (by omega))
    obtain ⟨b4, hb4⟩ := Option.isSome_iff_exists.mp
      (getByte_isSome (l := dv) (p := s.pos + 4) (by omega) (by omega))
    obtain ⟨b5, hb5⟩ := Option.isSome_iff_exists.mp
      (getByte_isSome (l := dv) (p := s.pos + 5) (by omega) (by omega))
    obtain ⟨b6, hb6⟩ := Option.isSome_iff_exists.mp
      (getByte_isSome (l := dv) (p := s.pos + 6) (by omega) (by omega))
    obtain ⟨b7, hb7⟩ := Option.isSome_iff_exists.mp
      (getByte_isSome (l := dv) (p := s.pos + 7) (by omega) (by omega))
    rw [hb0, hb1, hb2, hb3, hb4, hb5, hb6, hb7]
    rfl

/-- Every method the dispatch can select reads `bitDepth / 8` bytes per
sample and satisfies its width specification. -/
theorem selectPcm_spec {d : Nat} {fp sym : Bool} {rd : PcmFn}
    (h : selectPcm d fp sym = some rd) : PcmSpec rd (d / 8) := by
  unfold selectPcm at h
  split at h
  · split at h
    · rename_i hd; cases h; rw [hd]; exact pcm32f_spec
    · split at h
      · rename_i hd; cases h; rw [hd]; exact pcm64f_spec
      · cases h
  · split at h
    · split at h
      · rename_i hd; cases h; rw [hd]; exact pcm8s_spec
      · split at h
        · rename_i hd; cases h; rw [hd]; exact pcm16s_spec
        · split at h
          · rename_i hd; cases h; rw [hd]; exact pcm24s_spec
          · split at h
            · rename_i hd; cases h; rw [hd]; exact pcm32s_spec
            · cases h
    · split at h
      · rename_i hd; cases h; rw [hd]; exact pcm8_spec
      · split at h
        · rename_i hd; cases h; rw [hd]; exact pcm16_spec
        · split at h
          · rename_i hd; cases h; rw [hd]; exact pcm24_spec
          · split at h
            · rename_i hd; cases h; rw [hd]; exact pcm32_spec
            · cases h

end PcmSpecs

section GhostInvariant

/-- The monotonicity invariant: unless a `fmt ` chunk with declared size less
than 16 has been decoded, every position change so far was non-negative. -/
def GInv (s : RState) : Prop := s.shortFmt = false → s.mono = true

/-- Rebuild the invariant across a state with unchanged ghost fields. -/
theorem ginv_of_fields {s t : RState} (hm : t.mono = s.mono)
    (hf : t.shortFmt = s.shortFmt) (hs : GInv s) : GInv t := by
  intro h
  rw [hf] at h
  rw [hm]
  exact hs h

/-- A forward `skip` of a `uint32` chunk size preserves the invariant. -/
theorem skipBy_nat_ginv {s : RState} (hs : GInv s) (k : Nat) :
    GInv (skipBy s (k : Int)) := by
  intro h
  simp only [skipBy] at h ⊢
  rw [hs h]
  simp

/-- `decodeFormat` preserves the invariant: its reads advance, its trailing
skip is only negative when the chunk size is below 16, and in that very case
it raises the `shortFmt` ghost flag. -/
theorem decodeFormat_ginv (dv : List Nat) (cs : Nat) (s : RState) (hs : GInv s) :
    GInv (resSt (decodeFormat dv cs s)) := by
  unfold decodeFormat
  cases h1 : readU16 dv s with
  | none => exact hs
  | some p1 =>
    obtain ⟨fid, t1⟩ := p1
    have e1 : t1 = adv s 2 := by have := readU16_state h1; simpa using this
    subst e1
    simp only
    by_cases hd : formatsDefined fid = false
    · rw [if_pos hd]
      exact hs
    · rw [if_neg hd]
      cases h2 : readU16 dv (adv s 2) with
      | none => exact hs
      | some p2 =>
        obtain ⟨nch, t2⟩ := p2
        have e2 : t2 = adv (adv s 2) 2 := by have := readU16_state h2; simpa using this
        subst e2
        simp only
        cases h3 : readU32 dv (adv (adv s 2) 2) with
        | none => exact hs
        | some p3 =>
          obtain ⟨sr, t3⟩ := p3
          have e3 : t3 = adv (adv (adv s 2) 2) 4 := by
            have := readU32_state h3; simpa using this
          subst e3
          simp only
          cases h4 : readU32 dv (adv (adv (adv s 2) 2) 4) with
          | none => exact hs
          | some p4 =>
            obtain ⟨br, t4⟩ := p4
            have e4 : t4 = adv (adv (adv (adv s 2) 2) 4) 4 := by
              have := readU32_state h4; simpa using this
            subst e4
            simp only
            cases h5 : readU16 dv (adv (adv (adv (adv s 2) 2) 4) 4) with
            | none => exact hs
            | some p5 =>
              obtain ⟨bs, t5⟩ := p5
              have e5 : t5 = adv (adv (adv (adv (adv s 2) 2) 4) 4) 2 := by
                have := readU16_state h5; simpa using this
              subst e5
              simp only
              cases h6 : readU16 dv (adv (adv (adv (adv (adv s 2) 2) 4) 4) 2) with
              | none => exact hs
              | some p6 =>
                obtain ⟨bd, t6⟩ := p6
                have e6 : t6 = adv (adv (adv (adv (adv (adv s 2) 2) 4) 4) 2) 2 := by
                  have := readU16_state h6; simpa using this
                subst e6
                simp only [resSt]
                intro h8
                simp only [skipBy, adv, Bool.or_eq_false_iff,
                  decide_eq_false_iff_not, not_lt] at h8 ⊢
                obtain ⟨hsf, h16⟩ := h8
                rw [hs hsf]
                simp only [Bool.true_and, decide_eq_true_eq]
                omega

/-- The sample loop body leaves the ghost fields unchanged (its reads only
advance the position), whether it finishes or throws. -/
theorem readFrame_ghost {rd : PcmFn} {dv : List Nat} {w : Nat}
    (hrd : ∀ (s : RState) (r : JSVal × RState), rd dv s = some r → r.2 = adv s w)
    (i : Nat) : ∀ (chs ch : Nat) (cd : List (List JSVal)) (s : RState),
      (resSt (readFrame rd dv i chs ch cd s)).mono = s.mono ∧
      (resSt (readFrame rd dv i chs ch cd s)).shortFmt = s.shortFmt := by
  intro chs
  induction chs with
  | zero => intro ch cd s; exact ⟨rfl, rfl⟩
  | succ chs ih =>
    intro ch cd s
    unfold readFrame
    cases hr : rd dv s with
    | none => exact ⟨rfl, rfl⟩
    | some p =>
      obtain ⟨v, s1⟩ := p
      have e : s1 = adv s w := by have := hrd s (v, s1) hr; simpa using this
      subst e
      simp only
      exact ih (ch + 1) (writeSample cd ch i v) (adv s w)

/-- The whole sample loop leaves the ghost fields unchanged. -/
theorem pcmLoop_ghost {rd : PcmFn} {dv : List Nat} {w : Nat}
    (hrd : ∀ (s : RState) (r : JSVal × RState), rd dv s = some r → r.2 = adv s w)
    (n : Nat) : ∀ (it i : Nat) (cd : List (List JSVal)) (s : RState),
      (resSt (pcmLoop rd dv n it i cd s)).mono = s.mono ∧
      (resSt (pcmLoop rd dv n it i cd s)).shortFmt = s.shortFmt := by
  intro it
  induction it with
  | zero => intro i cd s; exact ⟨rfl, rfl⟩
  | succ it ih =>
    intro i cd s
    unfold pcmLoop
    cases hrf : readFrame rd dv i n 0 cd s with
    | error e =>
      have hg := readFrame_ghost hrd i n 0 cd s
      rw [hrf] at hg
      exact hg
    | ok p =>
      obtain ⟨cd1, s1⟩ := p
      have hg := readFrame_ghost hrd i n 0 cd s
      rw [hrf] at hg
      simp only [resSt] at hg
      have hi := ih (i + 1) cd1 s1
      exact ⟨by rw [hi.1, hg.1], by rw [hi.2, hg.2]⟩

/-- `decodeData` preserves the invariant. -/
theorem decodeData_ginv (dv : List Nat) (declared : Nat) (format? : Option Format)
    (opts : DecodeOptions) (s : RState) (hs : GInv s) :
    GInv (resSt (decodeData dv declared format? opts s)) := by
  unfold decodeData
  cases format? with
  | none => exact hs
  | some fmt =>
    simp only
    split
    · exact hs
    · unfold readPCM
      cases hsel : selectPcm fmt.bitDepth fmt.floatingPoint (opts.symmetric.getD false) with
      | none => exact hs
      | some rd =>
        simp only
        cases hni : numIter (jsFrameLength (min (declared : Int) ((dv.length : Int) - s.pos))
            fmt.blockSize fmt.numberOfChannels) with
        | none => exact hs
        | some it =>
          simp only
          have hspec := selectPcm_spec hsel
          have hg := pcmLoop_ghost (hspec.1 dv) fmt.numberOfChannels it 0
            (initCd fmt.numberOfChannels
              ((arrayLen (jsFrameLength (min (declared : Int) ((dv.length : Int) - s.pos))
                fmt.blockSize fmt.numberOfChannels)).getD 0)) s
          cases hpl : pcmLoop rd dv fmt.numberOfChannels it 0
              (initCd fmt.numberOfChannels
                ((arrayLen (jsFrameLength (min (declared : Int) ((dv.length : Int) - s.pos))
                  fmt.blockSize fmt.numberOfChannels)).getD 0)) s with
          | error e =>
            rw [hpl] at hg
            obtain ⟨err, s2⟩ := e
            exact ginv_of_fields hg.1 hg.2 hs
          | ok p =>
            rw [hpl] at hg
            obtain ⟨cd, s2⟩ := p
            exact ginv_of_fields hg.1 hg.2 hs

/-- The chunk walk preserves the invariant. -/
theorem walk_ginv (dv : List Nat) (opts : DecodeOptions) :
    ∀ (fuel : Nat) (format? : Option Format) (s : RState), GInv s →
      GInv (resSt (walk dv opts fuel format? s)) := by
  intro fuel
  induction fuel with
  | zero => intro _ _ hs; exact hs
  | succ fuel ih =>
    intro format? s hs
    simp only [walk]
    cases htag : readTag4 dv s with
    | none => exact hs
    | some r =>
      obtain ⟨tag, s1⟩ := r
      have e1 : s1 = adv s 4 := by have := readTag4_state htag; simpa using this
      subst e1
      simp only
      cases hsz : readU32 dv (adv s 4) with
      | none => exact hs
      | some r2 =>
        obtain ⟨size, s2⟩ := r2
        have e2 : s2 = adv (adv s 4) 4 := by have := readU32_state hsz; simpa using this
        subst e2
        simp only
        by_cases h1 : tag = fmtTag
        · rw [if_pos h1]
          cases hdf : decodeFormat dv size (adv (adv s 4) 4) with
          | error e =>
            have hg := decodeFormat_ginv dv size (adv (adv s 4) 4) hs
            rw [hdf] at hg
            exact hg
          | ok p =>
            obtain ⟨f, s3⟩ := p
            have hg := decodeFormat_ginv dv size (adv (adv s 4) 4) hs
            rw [hdf] at hg
            exact ih (some f) s3 hg
        · by_cases h2 : tag = dataTag
          · rw [if_neg h1, if_pos h2]
            exact decodeData_ginv dv size format? opts _ hs
          · rw [if_neg h1, if_neg h2]
            exact ih format? _ (skipBy_nat_ginv hs size)

end GhostInvariant

/-- C3 (amended): the offset is monotonically non-decreasing throughout a
`decodeSync` call — captured by the ghost `mono` flag, which only `skip` with
a negative argument can clear — provided no `fmt ` chunk with declared size
below 16 was decoded (ghost `shortFmt` flag); such a chunk makes
`skip(chunkSize - 16)` move the offset backward. -/
theorem c3_monotone_no_short_fmt (dv : List Nat) (opts? : Option DecodeOptions)
    (h : (resSt (decodeSync dv opts?)).shortFmt = false) :
    (resSt (decodeSync dv opts?)).mono = true := by
  have hg : GInv (resSt (decodeSync dv opts?)) := by
    unfold decodeSync
    cases htag : readTag4 dv initState with
    | none => intro _; rfl
    | some r =>
      obtain ⟨t1, s1⟩ := r
      have e1 : s1 = adv initState 4 := by have := readTag4_state htag; simpa using this
      subst e1
      simp only
      by_cases h1 : t1 ≠ riffTag
      · rw [if_pos h1]; intro _; rfl
      · rw [if_neg h1]
        cases hsz : readU32 dv (adv initState 4) with
        | none => intro _; rfl
        | some r2 =>
          obtain ⟨x, s2⟩ := r2
          have e2 : s2 = adv (adv initState 4) 4 := by
            have := readU32_state hsz; simpa using this
          subst e2
          simp only
          cases htag2 : readTag4 dv (adv (adv initState 4) 4) with
          | none => intro _; rfl
          | some r3 =>
            obtain ⟨t2, s3⟩ := r3
            have e3 : s3 = adv (adv (adv initState 4) 4) 4 := by
              have := readTag4_state htag2; simpa using this
            subst e3
            simp only
            by_cases h2 : t2 ≠ waveTag
            · rw [if_pos h2]; intro _; rfl
            · rw [if_neg h2]
              exact walk_ginv dv _ _ none _ (fun _ => rfl)
  exact hg h

/-- Witness for C3: on a well-formed minimal WAV the decode ends with
`shortFmt = false`, and the theorem then yields `mono = true`. -/
theorem c3_monotone_no_short_fmt_witness :
    (resSt (decodeSync (minimalWav16 1 1 [7, 0]) none)).shortFmt = false ∧
      (resSt (decodeSync (minimalWav16 1 1 [7, 0]) none)).mono = true :=
  ⟨by decide, c3_monotone_no_short_fmt (minimalWav16 1 1 [7, 0]) none (by decide)⟩

section ListHelpers

/-- Writing inside the list at the written slot. -/
theorem getD_set_self {α : Type} {l : List α} {k : Nat} (h : k < l.length) (a d : α) :
    (l.set k a).getD k d = a := by
  simp [List.getD_eq_getElem?_getD, List.getElem?_set_self h]

/-- Writing inside the list elsewhere. -/
theorem getD_set_ne {α : Type} {l : List α} {k j : Nat} (h : k ≠ j) (a d : α) :
    (l.set k a).getD j d = l.getD j d := by
  simp [List.getD_eq_getElem?_getD, List.getElem?_set_ne h]

/-- Dropping then reading shifts the index. -/
theorem getD_drop {α : Type} (l : List α) (n k : Nat) (d : α) :
    (l.drop n).getD k d = l.getD (n + k) d := by
  simp [List.getD_eq_getElem?_getD, List.getElem?_drop]

/-- Reading inside the taken region. -/
theorem getD_take_lt {α : Type} (l : List α) {n k : Nat} (h : k < n) (d : α) :
    (l.take n).getD k d = l.getD k d := by
  simp [List.getD_eq_getElem?_getD, List.getElem?_take_of_lt h]

end ListHelpers

section Interleave

/-- A successful read yields exactly the requested number of samples. -/
theorem readSamples_length {rd : PcmFn} {dv : List Nat} :
    ∀ {k : Nat} {s : RState} {ws : List JSVal} {s1 : RState},
      readSamples rd dv k s = some (ws, s1) → ws.length = k := by
  intro k
  induction k with
  | zero => intro s ws s1 h; cases h; rfl
  | succ k ih =>
    intro s ws s1 h
    unfold readSamples at h
    cases hr : rd dv s with
    | none => rw [hr] at h; cases h
    | some p =>
      obtain ⟨v, t⟩ := p
      rw [hr] at h
      simp only at h
      cases hs : readSamples rd dv k t with
      | none => rw [hs] at h; cases h
      | some q =>
        obtain ⟨ws2, s2⟩ := q
        rw [hs] at h
        cases h
        simp [ih hs]

/-- Splitting a sequential sample read. -/
theorem readSamples_add {rd : PcmFn} {dv : List Nat} :
    ∀ {a b : Nat} {s : RState} {ws : List JSVal} {s2 : RState},
      readSamples rd dv (a + b) s = some (ws, s2) →
      ∃ s1, readSamples rd dv a s = some (ws.take a, s1) ∧
        readSamples rd dv b s1 = some (ws.drop a, s2) := by
  intro a
  induction a with
  | zero =>
    intro b s ws s2 h
    rw [Nat.zero_add] at h
    exact ⟨s, rfl, by simpa using h⟩
  | succ a ih =>
    intro b s ws s2 h
    have hre : a + 1 + b = (a + b) + 1 := by omega
    rw [hre] at h
    unfold readSamples at h
    cases hr : rd dv s with
    | none => rw [hr] at h; cases h
    | some p =>
      obtain ⟨v, t⟩ := p
      rw [hr] at h
      simp only at h
      cases hs : readSamples rd dv (a + b) t with
      | none => rw [hs] at h; cases h
      | some q =>
        obtain ⟨ws2, t2⟩ := q
        rw [hs] at h
        cases h
        obtain ⟨s1, h1, h2⟩ := ih hs
        refine ⟨s1, ?_, by simpa using h2⟩
        unfold readSamples
        rw [hr]
        simp only
        rw [h1]
        rfl

/-- The writes one frame performs, channel by channel. -/
def writeChunk : List (List JSVal) → Nat → Nat → List JSVal → List (List JSVal)
  | cd, _, _, [] => cd
  | cd, ch, i, v :: vs => writeChunk (writeSample cd ch i v) (ch + 1) i vs

/-- One frame of the loop is a sequential read of `chs` samples followed by
the writes `channelData[ch][i] = sample`. -/
theorem readFrame_eq_writeChunk {rd : PcmFn} {dv : List Nat} {i : Nat} :
    ∀ {chs ch : Nat} {cd : List (List JSVal)} {s : RState} {vs : List JSVal} {s1 : RState},
      readSamples rd dv chs s = some (vs, s1) →
      readFrame rd dv i chs ch cd s = .ok (writeChunk cd ch i vs, s1) := by
  intro chs
  induction chs with
  | zero => intro ch cd s vs s1 h; cases h; rfl
  | succ chs ih =>
    intro ch cd s vs s1 h
    unfold readSamples at h
    cases hr : rd dv s with
    | none => rw [hr] at h; cases h
    | some p =>
      obtain ⟨v, t⟩ := p
      rw [hr] at h
      simp only at h
      cases hs : readSamples rd dv chs t with
      | none => rw [hs] at h; cases h
      | some q =>
        obtain ⟨ws2, s2⟩ := q
        rw [hs] at h
        cases h
        unfold readFrame
        rw [hr]
        exact ih hs

/-- The writes the whole loop performs, frame by frame. -/
def writeFrames (n : Nat) : Nat → Nat → List JSVal → List (List JSVal) → List (List JSVal)
  | 0, _, _, cd => cd
  | it + 1, i, ws, cd => writeFrames n it (i + 1) (ws.drop n) (writeChunk cd 0 i (ws.take n))

/-- The loop equals a sequential read of `it * n` samples followed by the
frame-interleaved writes. -/
theorem pcmLoop_eq_writeFrames {rd : PcmFn} {dv : List Nat} {n : Nat} :
    ∀ {it i : Nat} {cd : List (List JSVal)} {s : RState} {ws : List JSVal} {s1 : RState},
      readSamples rd dv (it * n) s = some (ws, s1) →
      pcmLoop rd dv n it i cd s = .ok (writeFrames n it i ws cd, s1) := by
  intro it
  induction it with
  | zero =>
    intro i cd s ws s1 h
    rw [Nat.zero_mul] at h
    cases h
    rfl
  | succ it ih =>
    intro i cd s ws s1 h
    have hre : (it + 1) * n = n + it * n := by ring
    rw [hre] at h
    obtain ⟨t, h1, h2⟩ := readSamples_add h
    unfold pcmLoop
    rw [readFrame_eq_writeChunk h1]
    simp only
    rw [ih h2]
    rfl

/-- `writeSample` preserves the channel count. -/
theorem writeSample_length (cd : List (List JSVal)) (ch i : Nat) (v : JSVal) :
    (writeSample cd ch i v).length = cd.length :=
  List.length_set cd ch _

/-- `writeSample` preserves every channel length. -/
theorem writeSample_channelLength (cd : List (List JSVal)) (ch i : Nat) (v : JSVal)
    (j : Nat) : ((writeSample cd ch i v).getD j []).length = (cd.getD j []).length := by
  unfold writeSample
  by_cases hj : ch = j
  · subst hj
    by_cases hlt : ch < cd.length
    · rw [getD_set_self hlt]
      exact List.length_set _ _ _
    · rw [List.set_eq_of_length_le (by omega)]
  · rw [getD_set_ne hj]

/-- `writeSample` only changes the one slot it writes. -/
theorem writeSample_getD_ne (cd : List (List JSVal)) (ch i : Nat) (v : JSVal)
    {j k : Nat} (h : j ≠ ch ∨ k ≠ i) (d : JSVal) :
    ((writeSample cd ch i v).getD j []).getD k d = (cd.getD j []).getD k d := by
  unfold writeSample
  by_cases hj : ch = j
  · subst hj
    have hk : k ≠ i := by tauto
    by_cases hlt : ch < cd.length
    · rw [getD_set_self hlt]
      exact getD_set_ne (fun he => hk he.symm) v d
    · rw [List.set_eq_of_length_le (by omega)]
  · rw [getD_set_ne hj]

/-- `writeSample` stores the sample at the written slot. -/
theorem writeSample_getD_at (cd : List (List JSVal)) {ch i : Nat} (v : JSVal)
    (hch : ch < cd.length) (hi : i < (cd.getD ch []).length) (d : JSVal) :
    ((writeSample cd ch i v).getD ch []).getD i d = v := by
  unfold writeSample
  rw [getD_set_self hch]
  exact getD_set_self hi v d

/-- `writeChunk` preserves the channel count. -/
theorem writeChunk_length (vs : List JSVal) :
    ∀ (cd : List (List JSVal)) (ch i : Nat), (writeChunk cd ch i vs).length = cd.length := by
  induction vs with
  | nil => intros; rfl
  | cons v vs ih =>
    intro cd ch i
    simp only [writeChunk]
    rw [ih, writeSample_length]

/-- `writeChunk` preserves every channel length. -/
theorem writeChunk_channelLength (vs : List JSVal) :
    ∀ (cd : List (List JSVal)) (ch i j : Nat),
      ((writeChunk cd ch i vs).getD j []).length = (cd.getD j []).length := by
  induction vs with
  | nil => intros; rfl
  | cons v vs ih =>
    intro cd ch i j
    simp only [writeChunk]
    rw [ih, writeSample_channelLength]

/-- Slots outside one frame's writes are untouched by it. -/
theorem writeChunk_getD_ne (vs : List JSVal) :
    ∀ (cd : List (List JSVal)) (ch i ch0 j : Nat) (d : JSVal),
      (j ≠ i ∨ ch0 < ch ∨ ch + vs.length ≤ ch0) →
      ((writeChunk cd ch i vs).getD ch0 []).getD j d = (cd.getD ch0 []).getD j d := by
  induction vs with
  | nil => intros; rfl
  | cons v vs ih =>
    intro cd ch i ch0 j d h
    simp only [writeChunk]
    rw [ih _ _ _ _ _ _ (by rcases h with h | h | h; exact Or.inl h; exact Or.inr (Or.inl (by omega)); exact Or.inr (Or.inr (by simp at h ⊢; omega)))]
    exact writeSample_getD_ne cd ch i v
      (by rcases h with h | h | h
          · exact Or.inr h
          · exact Or.inl (by omega)
          · exact Or.inl (by simp at h; omega)) d

/-- One frame's writes land each sample at `channelData[ch + k][i]`. -/
theorem writeChunk_getD_at (vs : List JSVal) :
    ∀ (cd : List (List JSVal)) (ch i k : Nat) (d : JSVal), k < vs.length →
      ch + k < cd.length → i < (cd.getD (ch + k) []).length →
      ((writeChunk cd ch i vs).getD (ch + k) []).getD i d = vs.getD k d := by
  induction vs with
  | nil => intro _ _ _ k _ hk; simp at hk
  | cons v vs ih =>
    intro cd ch i k d hk hch hi
    simp only [writeChunk]
    cases k with
    | zero =>
      rw [writeChunk_getD_ne vs _ _ _ _ _ _ (Or.inr (Or.inl (by omega)))]
      simp only [Nat.add_zero] at hch hi ⊢
      rw [writeSample_getD_at cd v hch hi d]
      rfl
    | succ k =>
      have harr : ch + (k + 1) = (ch + 1) + k := by omega
      rw [harr]
      rw [ih _ _ _ _ _ (by simpa using Nat.lt_of_succ_lt_succ (Nat.succ_lt_succ (Nat.lt_of_succ_lt_succ hk)))
        (by rw [writeSample_length]; omega)
        (by rw [writeSample_channelLength]; rw [← harr]; exact hi)]
      simp

/-- Channel count is preserved across all frames. -/
theorem writeFrames_length (n : Nat) :
    ∀ (it i : Nat) (ws : List JSVal) (cd : List (List JSVal)),
      (writeFrames n it i ws cd).length = cd.length := by
  intro it
  induction it with
  | zero => intros; rfl
  | succ it ih =>
    intro i ws cd
    simp only [writeFrames]
    rw [ih, writeChunk_length]

/-- Channel lengths are preserved across all frames. -/
theorem writeFrames_channelLength (n : Nat) :
    ∀ (it i : Nat) (ws : List JSVal) (cd : List (List JSVal)) (j : Nat),
      ((writeFrames n it i ws cd).getD j []).length = (cd.getD j []).length := by
  intro it
  induction it with
  | zero => intros; rfl
  | succ it ih =>
    intro i ws cd j
    simp only [writeFrames]
    rw [ih, writeChunk_channelLength]

/-- Frames with index at least `i` never write below slot `i`. -/
theorem writeFrames_getD_lt (n : Nat) :
    ∀ (it i : Nat) (ws : List JSVal) (cd : List (List JSVal)) (ch j : Nat) (d : JSVal),
      j < i →
      ((writeFrames n it i ws cd).getD ch []).getD j d = (cd.getD ch []).getD j d := by
  intro it
  induction it with
  | zero => intros; rfl
  | succ it ih =>
    intro i ws cd ch j d hj
    simp only [writeFrames]
    rw [ih (i + 1) _ _ _ _ _ (by omega)]
    exact writeChunk_getD_ne _ _ _ _ _ _ _ (Or.inl (by omega))

/-- The value written at `channelData[ch][j]` is sample number `(j-i)*n + ch`
of the stream the frames from `i` on consume. -/
theorem writeFrames_getD_at (n : Nat) :
    ∀ (it i : Nat) (ws : List JSVal) (cd : List (List JSVal)) (ch j : Nat) (d : JSVal),
      ch < n → ch < cd.length → i ≤ j → j < i + it →
      j < (cd.getD ch []).length → ws.length = it * n →
      ((writeFrames n it i ws cd).getD ch []).getD j d = ws.getD ((j - i) * n + ch) d := by
  intro it
  induction it with
  | zero => intro i ws cd ch j d _ _ hij hjit; omega
  | succ it ih =>
    intro i ws cd ch j d hchn hchlen hij hjit hjlen hws
    simp only [writeFrames]
    have hn1 : n ≤ ws.length := by
      rw [hws]
      exact Nat.le_mul_of_pos_left n (by omega)
    by_cases hji : j = i
    · subst hji
      rw [writeFrames_getD_lt n it (j + 1) _ _ _ _ d (by omega)]
      have h0 : (0 : Nat) + ch = ch := by omega
      have := writeChunk_getD_at (ws.take n) cd 0 j ch d
        (by rw [List.length_take]; omega) (by omega) (by rwa [h0])
      rw [h0] at this
      rw [this]
      rw [getD_take_lt ws hchn d]
      simp
    · have hij1 : i + 1 ≤ j := by omega
      rw [ih (i + 1) (ws.drop n) _ ch j d hchn
        (by rw [writeChunk_length]; exact hchlen) hij1 (by omega)
        (by rw [writeChunk_channelLength]; exact hjlen)
        (by rw [List.length_drop, hws]; ring_nf; omega)]
      rw [getD_drop]
      have hsub : j - i = (j - (i + 1)) + 1 := by omega
      rw [hsub, Nat.succ_mul]
      congr 1
      omega

/-- The freshly allocated channel array list has `n` channels. -/
theorem initCd_length (n len : Nat) : (initCd n len).length = n :=
  List.length_replicate n _

/-- Each freshly allocated channel is the zero-filled array. -/
theorem initCd_getD (n len : Nat) {j : Nat} (h : j < n) :
    (initCd n len).getD j [] = List.replicate len (.q 0) := by
  unfold initCd
  rw [List.getD_eq_getElem?_getD, List.getElem?_replicate, if_pos h]
  rfl

/-- The loop started on freshly allocated channels: it succeeds along with
the sequential sample read, keeps `n` channels of length `it`, and stores
stream sample `i * n + ch` at `channelData[ch][i]`. -/
theorem pcmLoop_initCd (rd : PcmFn) (dv : List Nat) (n it : Nat) (s : RState)
    (ws : List JSVal) (s1 : RState)
    (hr : readSamples rd dv (it * n) s = some (ws, s1)) :
    ∃ cd, pcmLoop rd dv n it 0 (initCd n it) s = .ok (cd, s1) ∧
      cd.length = n ∧ (∀ c ∈ cd, c.length = it) ∧
      ∀ ch i, ch < n → i < it →
        (cd.getD ch []).getD i (.q 0) = ws.getD (i * n + ch) (.q 0) := by
  refine ⟨writeFrames n it 0 ws (initCd n it), pcmLoop_eq_writeFrames hr, ?_, ?_, ?_⟩
  · rw [writeFrames_length, initCd_length]
  · intro c hc
    obtain ⟨j, hjlen, hj⟩ := List.mem_iff_getElem.mp hc
    have hjn : j < n := by
      rw [writeFrames_length, initCd_length] at hjlen
      exact hjlen
    have hgd : (writeFrames n it 0 ws (initCd n it)).getD j [] = c := by
      rw [List.getD_eq_getElem?_getD, List.getElem?_eq_getElem hjlen, hj]
      rfl
    rw [← hgd, writeFrames_channelLength, initCd_getD n it hjn]
    exact List.length_replicate it _
  · intro ch i hch hi
    rw [writeFrames_getD_at n it 0 ws (initCd n it) ch i (.q 0) hch
      (by rw [initCd_length]; exact hch) (by omega) (by omega)
      (by rw [initCd_getD n it hch, List.length_replicate]; exact hi)
      (readSamples_length hr)]
    simp

end Interleave

/-- C6: for every combination the dispatch supports, the sample loop consumes
samples from the cursor in frame-interleaved order: reading `it * n` samples
sequentially succeeds exactly as the loop does, and the sample at stream
position `i * n + ch` — frame `i`, then channel `ch` in increasing order
within the frame — is the value stored at `channelData[ch][i]`. -/
theorem c6_interleaved_order (d : Nat) (fp sym : Bool) (rd : PcmFn)
    (_hsel : selectPcm d fp sym = some rd)
    (dv : List Nat) (n it : Nat) (s : RState) (ws : List JSVal) (s1 : RState)
    (hr : readSamples rd dv (it * n) s = some (ws, s1)) :
    ∃ cd, pcmLoop rd dv n it 0 (initCd n it) s = .ok (cd, s1) ∧
      cd.length = n ∧ (∀ c ∈ cd, c.length = it) ∧
      ∀ ch i, ch < n → i < it →
        (cd.getD ch []).getD i (.q 0) = ws.getD (i * n + ch) (.q 0) :=
  pcmLoop_initCd rd dv n it s ws s1 hr

/-- Witness for C6: `pcm16` on a 2-channel, 2-frame stream — the four samples
land at `channelData[ch][i]` with `ws[i*2+ch]`. -/
theorem c6_interleaved_order_witness :
    ∃ cd, pcmLoop pcm16 [1, 0, 2, 0, 3, 0, 4, 0] 2 2 0 (initCd 2 2) initState =
        .ok (cd, ⟨8, true, false⟩) ∧
      cd.length = 2 ∧ (∀ c ∈ cd, c.length = 2) ∧
      ∀ ch i, ch < 2 → i < 2 →
        (cd.getD ch []).getD i (.q 0) =
          [JSVal.q (1 / 32767), .q (2 / 32767), .q (3 / 32767), .q (4 / 32767)].getD
            (i * 2 + ch) (.q 0) :=
  c6_interleaved_order 16 false false pcm16 rfl [1, 0, 2, 0, 3, 0, 4, 0] 2 2 initState
    [JSVal.q (1 / 32767), .q (2 / 32767), .q (3 / 32767), .q (4 / 32767)]
    ⟨8, true, false⟩ rfl

section InBounds

/-- A sample reader that needs `w` bytes per sample reads `k` samples exactly
when `w * k` bytes remain, ending `w * k` bytes further on. -/
theorem readSamples_of_spec {rd : PcmFn} {w : Nat} (hspec : PcmSpec rd w)
    (dv : List Nat) :
    ∀ (k : Nat) (s : RState), 0 ≤ s.pos →
      s.pos + ((w * k : Nat) : Int) ≤ (dv.length : Int) →
      ∃ ws, readSamples rd dv k s = some (ws, adv s (w * k)) := by
  intro k
  induction k with
  | zero =>
    intro s h0 h1
    refine ⟨[], ?_⟩
    unfold readSamples
    cases s
    simp [adv]
  | succ k ih =>
    intro s h0 h1
    have hw1 : s.pos + (w : Int) ≤ (dv.length : Int) := by
      have : (w : Int) ≤ ((w * (k + 1) : Nat) : Int) := by
        push_cast
        nlinarith
      omega
    have hr := hspec.2 dv s h0 hw1
    obtain ⟨p, hp⟩ := Option.isSome_iff_exists.mp hr
    obtain ⟨v, t⟩ := p
    have ht : t = adv s w := by
      have := hspec.1 dv s (v, t) hp
      simpa using this
    subst ht
    have hrec := ih (adv s w) (by simp [adv]; omega)
      (by simp only [adv]; push_cast at h1 ⊢; nlinarith)
    obtain ⟨ws, hws⟩ := hrec
    refine ⟨v :: ws, ?_⟩
    unfold readSamples
    rw [hp]
    simp only
    rw [hws]
    have : adv (adv s w) (w * k) = adv s (w * (k + 1)) := by
      simp only [adv, RState.mk.injEq, and_true]
      push_cast
      ring
    rw [this]

/-- Floor division of cast naturals. -/
theorem fdiv_cast_nat (m n : Nat) :
    Int.fdiv (m : Int) (n : Int) = ((m / n : Nat) : Int) := by
  rw [Int.fdiv_eq_ediv _ (by omega)]
  exact (Int.ofNat_ediv m n).symm

/-- When the format is sane — at least one channel, a block size of at least
one sample width — `decodeData` succeeds: the declared size is clamped to the
remaining bytes, the frame count comes from the clamped size, all sample
reads stay inside the buffer, and the final position is in range. -/
theorem decodeData_ok (dv : List Nat) (declared : Nat) (fmt : Format)
    (opts : DecodeOptions) (s : RState) (rd : PcmFn)
    (h0 : 0 ≤ s.pos) (h1 : s.pos ≤ (dv.length : Int))
    (hn : 1 ≤ fmt.numberOfChannels) (hb : 1 ≤ fmt.blockSize)
    (hsel : selectPcm fmt.bitDepth fmt.floatingPoint (opts.symmetric.getD false) = some rd)
    (hwb : fmt.bitDepth / 8 ≤ fmt.blockSize) :
    ∃ cd s1,
      decodeData dv declared (some fmt) opts s = .ok
        ({ numberOfChannels := fmt.numberOfChannels,
           length := .fin (Int.fdiv (min (declared : Int) ((dv.length : Int) - s.pos))
             ((fmt.blockSize : Int) * (fmt.numberOfChannels : Int))),
           sampleRate := fmt.sampleRate, channelData := cd }, s1) ∧
      cd.length = fmt.numberOfChannels ∧
      (∀ c ∈ cd, c.length =
        (min (declared : Int) ((dv.length : Int) - s.pos)).toNat /
          (fmt.blockSize * fmt.numberOfChannels)) ∧
      0 ≤ s1.pos ∧ s1.pos ≤ (dv.length : Int) := by
  have hc0 : 0 ≤ min (declared : Int) ((dv.length : Int) - s.pos) := by omega
  have hcast : min (declared : Int) ((dv.length : Int) - s.pos) =
      (((min (declared : Int) ((dv.length : Int) - s.pos)).toNat : Nat) : Int) := by
    omega
  have hkdef : Int.fdiv (min (declared : Int) ((dv.length : Int) - s.pos))
      ((fmt.blockSize : Int) * (fmt.numberOfChannels : Int)) =
      (((min (declared : Int) ((dv.length : Int) - s.pos)).toNat /
        (fmt.blockSize * fmt.numberOfChannels) : Nat) : Int) := by
    nth_rewrite 1 [hcast]
    rw [← Nat.cast_mul, fdiv_cast_nat]
  have hspec := selectPcm_spec hsel
  -- bytes consumed by the loop stay within the clamped size
  have hgen : ∀ (w b n C : Nat), w ≤ b → w * (C / (b * n) * n) ≤ C := by
    intro w b n C hw
    calc w * (C / (b * n) * n) ≤ b * (C / (b * n) * n) :=
          Nat.mul_le_mul_right _ hw
      _ = (b * n) * (C / (b * n)) := by ring
      _ ≤ C := Nat.mul_div_le C (b * n)
  have hbytes : fmt.bitDepth / 8 *
      (((min (declared : Int) ((dv.length : Int) - s.pos)).toNat /
        (fmt.blockSize * fmt.numberOfChannels)) * fmt.numberOfChannels) ≤
      (min (declared : Int) ((dv.length : Int) - s.pos)).toNat :=
    hgen _ _ _ _ hwb
  obtain ⟨ws, hws⟩ := readSamples_of_spec hspec dv
    ((((min (declared : Int) ((dv.length : Int) - s.pos)).toNat /
      (fmt.blockSize * fmt.numberOfChannels)) * fmt.numberOfChannels)) s h0
    (by
      have hx : ((fmt.bitDepth / 8 *
          (((min (declared : Int) ((dv.length : Int) - s.pos)).toNat /
            (fmt.blockSize * fmt.numberOfChannels)) * fmt.numberOfChannels) : ℕ) : ℤ) ≤
          (((min (declared : Int) ((dv.length : Int) - s.pos)).toNat : ℕ) : ℤ) := by
        exact_mod_cast hbytes
      omega)
  obtain ⟨cd, hcd, hlen, hchlen, _⟩ := pcmLoop_initCd rd dv fmt.numberOfChannels
    ((min (declared : Int) ((dv.length : Int) - s.pos)).toNat /
      (fmt.blockSize * fmt.numberOfChannels)) s ws _ hws
  refine ⟨cd, adv s (fmt.bitDepth / 8 *
    (((min (declared : Int) ((dv.length : Int) - s.pos)).toNat /
      (fmt.blockSize * fmt.numberOfChannels)) * fmt.numberOfChannels)), ?_, hlen, ?_, ?_, ?_⟩
  · unfold decodeData
    simp only
    rw [jsFrameLength_fin hb hn]
    rw [if_neg (by
      rw [hkdef]
      simp only [arrayLen]
      rw [if_pos (Int.natCast_nonneg _)]
      simp)]
    unfold readPCM
    rw [hsel]
    simp only [numIter]
    have harr : (arrayLen (.fin (Int.fdiv (min (declared : Int) ((dv.length : Int) - s.pos))
        ((fmt.blockSize : Int) * (fmt.numberOfChannels : Int))))).getD 0 =
        (Int.fdiv (min (declared : Int) ((dv.length : Int) - s.pos))
          ((fmt.blockSize : Int) * (fmt.numberOfChannels : Int))).toNat := by
      simp only [arrayLen]
      rw [if_pos (by rw [hkdef]; exact Int.natCast_nonneg _)]
      rfl
    rw [harr]
    have htoNat : (Int.fdiv (min (declared : Int) ((dv.length : Int) - s.pos))
        ((fmt.blockSize : Int) * (fmt.numberOfChannels : Int))).toNat =
        (min (declared : Int) ((dv.length : Int) - s.pos)).toNat /
          (fmt.blockSize * fmt.numberOfChannels) := by
      rw [hkdef]
      exact Int.toNat_ofNat _
    rw [htoNat, hcd]
  · intro c hc
    exact hchlen c hc
  · simp only [adv]
    omega
  · simp only [adv]
    have hx : ((fmt.bitDepth / 8 *
        (((min (declared : Int) ((dv.length : Int) - s.pos)).toNat /
          (fmt.blockSize * fmt.numberOfChannels)) * fmt.numberOfChannels) : ℕ) : ℤ) ≤
        (((min (declared : Int) ((dv.length : Int) - s.pos)).toNat : ℕ) : ℤ) :=
      Int.ofNat_le.mpr hbytes
    omega

end InBounds

/-- C4: when the declared `data` size exceeds the remaining bytes,
`decodeData` clamps it to `min(declaredSize, remainingBytes)` before computing
anything; the returned frame count is computed from the clamped size; and —
provided the declared block size is at least one sample width
(`bitDepth / 8 ≤ blockSize`, with at least one channel) — no sample read
during data decode goes past the end of the buffer: the decode either stops
with the `UnsupportedBitDepth` error before reading anything, or succeeds
with the final position still inside the buffer. -/
theorem c4_clamped_in_bounds (dv : List Nat) (declared : Nat) (fmt : Format)
    (opts : DecodeOptions) (s : RState)
    (h0 : 0 ≤ s.pos) (h1 : s.pos ≤ (dv.length : Int))
    (hn : 1 ≤ fmt.numberOfChannels) (hb : 1 ≤ fmt.blockSize)
    (hwb : fmt.bitDepth / 8 ≤ fmt.blockSize) :
    decodeData dv declared (some fmt) opts s =
        .error (.unsupportedBitDepth fmt.bitDepth, s) ∨
      ∃ info s1, decodeData dv declared (some fmt) opts s = .ok (info, s1) ∧
        info.length = .fin (Int.fdiv (min (declared : Int) ((dv.length : Int) - s.pos))
          ((fmt.blockSize : Int) * (fmt.numberOfChannels : Int))) ∧
        0 ≤ s1.pos ∧ s1.pos ≤ (dv.length : Int) := by
  cases hsel : selectPcm fmt.bitDepth fmt.floatingPoint (opts.symmetric.getD false) with
  | none =>
    left
    unfold decodeData
    simp only
    rw [jsFrameLength_fin hb hn]
    have hc0 : 0 ≤ min (declared : Int) ((dv.length : Int) - s.pos) := by omega
    rw [if_neg (by
      simp only [arrayLen]
      rw [if_pos (Int.fdiv_nonneg hc0
        (mul_nonneg (Int.natCast_nonneg _) (Int.natCast_nonneg _)))]
      simp)]
    unfold readPCM
    rw [hsel]
  | some rd =>
    right
    obtain ⟨cd, s1, heq, _, _, hp0, hp1⟩ :=
      decodeData_ok dv declared fmt opts s rd h0 h1 hn hb hsel hwb
    exact ⟨_, s1, heq, rfl, hp0, hp1⟩

/-- Witness for C4: a 16-bit mono format with block size 2 over a 4-byte
buffer and an over-declared size of 100 — the size is clamped to 4, one
frame is decoded, and the cursor ends at offset 4 = the buffer length. -/
theorem c4_clamped_in_bounds_witness :
    decodeData [1, 0, 2, 0] 100
        (some { formatId := 1, floatingPoint := false, numberOfChannels := 1,
                sampleRate := 8000, byteRate := 16000, blockSize := 2, bitDepth := 16 })
        {} initState =
        .error (.unsupportedBitDepth 16, initState) ∨
      ∃ info s1, decodeData [1, 0, 2, 0] 100
        (some { formatId := 1, floatingPoint := false, numberOfChannels := 1,
                sampleRate := 8000, byteRate := 16000, blockSize := 2, bitDepth := 16 })
        {} initState = .ok (info, s1) ∧
        info.length = .fin (Int.fdiv (min ((100 : Nat) : Int)
          ((([1, 0, 2, 0] : List Nat).length : Int) - initState.pos))
          (((2 : Nat) : Int) * ((1 : Nat) : Int))) ∧
        0 ≤ s1.pos ∧ s1.pos ≤ (([1, 0, 2, 0] : List Nat).length : Int) :=
  c4_clamped_in_bounds [1, 0, 2, 0] 100 _ {} initState (by decide) (by decide)
    (by decide) (by decide) (by decide)

/-- C1 (amended): for every valid minimal WAV buffer with `N` channels and
`L` complete 16-bit frames (data body of `N*L*2` bytes, block size `2*N`),
`decodeSync` succeeds and returns exactly `N` channel arrays — but each array
has length `L / N`, the frame length
`floor(clampedChunkSize / blockSize / numberOfChannels) =
floor(N*L*2 / (2*N) / N)`, which equals `L` only when `N = 1`: the extra
division by the channel count silently drops all later frames. -/
theorem c1_channel_lengths (N L : Nat) (pcm : List Nat) (opts? : Option DecodeOptions)
    (hN1 : 1 ≤ N) (hN : N < 32768) (hNL : N * L * 2 < 4294967296)
    (hpcm : pcm.length = N * L * 2) :
    ∃ info s1, decodeSync (minimalWav16 N L pcm) opts? = .ok (info, s1) ∧
      info.channelData.length = N ∧
      info.length = .fin ((L / N : ℕ) : ℤ) ∧
      ∀ c ∈ info.channelData, c.length = L / N := by
  have hlen : (minimalWav16 N L pcm).length = pcm.length + 44 := by
    simp [minimalWav16]
  have hDVL : ((minimalWav16 N L pcm).length : ℤ) = ((N * L * 2 : ℕ) : ℤ) + 44 := by
    rw [hlen, hpcm]
    push_cast
    ring
  -- the parsed format
  have hA : readU16 (minimalWav16 N L pcm) ⟨20, true, false⟩ =
      some (1, ⟨22, true, false⟩) := rfl
  have hB : readU16 (minimalWav16 N L pcm) ⟨22, true, false⟩ =
      some (N % 256 % 256 + 256 * (N / 256 % 256 % 256), ⟨24, true, false⟩) := rfl
  have hB2 : N % 256 % 256 + 256 * (N / 256 % 256 % 256) = N := by omega
  have hC : readU32 (minimalWav16 N L pcm) ⟨24, true, false⟩ =
      some (44100, ⟨28, true, false⟩) := rfl
  have hD : readU32 (minimalWav16 N L pcm) ⟨28, true, false⟩ =
      some (0, ⟨32, true, false⟩) := rfl
  have hE : readU16 (minimalWav16 N L pcm) ⟨32, true, false⟩ =
      some (2 * N % 256 % 256 + 256 * (2 * N / 256 % 256 % 256), ⟨34, true, false⟩) := rfl
  have hE2 : 2 * N % 256 % 256 + 256 * (2 * N / 256 % 256 % 256) = 2 * N := by omega
  have hF : readU16 (minimalWav16 N L pcm) ⟨34, true, false⟩ =
      some (16, ⟨36, true, false⟩) := rfl
  have edf : decodeFormat (minimalWav16 N L pcm) 16 ⟨20, true, false⟩ =
      .ok ({ formatId := 1, floatingPoint := false, numberOfChannels := N,
             sampleRate := 44100, byteRate := 0, blockSize := 2 * N, bitDepth := 16 },
           ⟨36, true, false⟩) := by
    unfold decodeFormat
    rw [hA]
    simp only
    rw [if_neg (by decide)]
    rw [hB]
    simp only
    rw [hC]
    simp only
    rw [hD]
    simp only
    rw [hE]
    simp only
    rw [hF]
    simp only
    rw [hB2, hE2]
    rfl
  -- the data chunk header
  have hG2 : N * L * 2 % 256 % 256 + 256 * (N * L * 2 / 256 % 256 % 256) +
      65536 * (N * L * 2 / 65536 % 256 % 256) +
      16777216 * (N * L * 2 / 16777216 % 256 % 256) = N * L * 2 := by omega
  have e2 : walk (minimalWav16 N L pcm) (opts?.getD {}) ((pcm.length + 43) + 1)
      (some { formatId := 1, floatingPoint := false, numberOfChannels := N,
              sampleRate := 44100, byteRate := 0, blockSize := 2 * N, bitDepth := 16 })
      ⟨36, true, false⟩ =
      decodeData (minimalWav16 N L pcm)
        (N * L * 2 % 256 % 256 + 256 * (N * L * 2 / 256 % 256 % 256) +
          65536 * (N * L * 2 / 65536 % 256 % 256) +
          16777216 * (N * L * 2 / 16777216 % 256 % 256))
        (some { formatId := 1, floatingPoint := false, numberOfChannels := N,
                sampleRate := 44100, byteRate := 0, blockSize := 2 * N, bitDepth := 16 })
        (opts?.getD {}) ⟨44, true, false⟩ := rfl
  rw [hG2] at e2
  -- the selected decode method
  obtain ⟨rd, hrd, hspec⟩ :
      ∃ rd, selectPcm 16 false ((opts?.getD {}).symmetric.getD false) = some rd ∧
        PcmSpec rd 2 := by
    cases (opts?.getD {}).symmetric.getD false
    · exact ⟨pcm16, rfl, pcm16_spec⟩
    · exact ⟨pcm16s, rfl, pcm16s_spec⟩
  obtain ⟨cd, s1, heq, hlen1, hchlen, _, _⟩ :=
    decodeData_ok (minimalWav16 N L pcm) (N * L * 2)
      { formatId := 1, floatingPoint := false, numberOfChannels := N,
        sampleRate := 44100, byteRate := 0, blockSize := 2 * N, bitDepth := 16 }
      (opts?.getD {}) ⟨44, true, false⟩ rd
      (by norm_num)
      (by show (44 : ℤ) ≤ ((minimalWav16 N L pcm).length : ℤ); omega)
      hN1 (by show 1 ≤ 2 * N; omega) hrd (by show 16 / 8 ≤ 2 * N; omega)
  -- arithmetic: the clamped size and the frame length
  have hmin : min ((N * L * 2 : ℕ) : ℤ) (((minimalWav16 N L pcm).length : ℤ) - 44) =
      ((N * L * 2 : ℕ) : ℤ) := by omega
  have hnatdiv : N * L * 2 / (2 * N * N) = L / N := by
    have h1 : N * L * 2 = 2 * N * L := by ring
    rw [h1]
    exact Nat.mul_div_mul_left L N (by omega)
  have hdiv : Int.fdiv (min ((N * L * 2 : ℕ) : ℤ)
      (((minimalWav16 N L pcm).length : ℤ) - 44))
      (((2 * N : ℕ) : ℤ) * ((N : ℕ) : ℤ)) = ((L / N : ℕ) : ℤ) := by
    rw [hmin, ← Nat.cast_mul, fdiv_cast_nat, hnatdiv]
  have hfuel : (minimalWav16 N L pcm).length = (pcm.length + 43) + 1 := by omega
  refine ⟨{ numberOfChannels := N,
            length := .fin (Int.fdiv (min ((N * L * 2 : ℕ) : ℤ)
              (((minimalWav16 N L pcm).length : ℤ) - 44))
              (((2 * N : ℕ) : ℤ) * ((N : ℕ) : ℤ))),
            sampleRate := 44100, channelData := cd }, s1, ?_, ?_, ?_, ?_⟩
  · calc decodeSync (minimalWav16 N L pcm) opts?
        = walk (minimalWav16 N L pcm) (opts?.getD {})
            ((minimalWav16 N L pcm).length + 1) none ⟨12, true, false⟩ := rfl
      _ = (match decodeFormat (minimalWav16 N L pcm) 16 ⟨20, true, false⟩ with
           | .error e => .error e
           | .ok (f, st) =>
              walk (minimalWav16 N L pcm) (opts?.getD {})
                (minimalWav16 N L pcm).length (some f) st) := rfl
      _ = walk (minimalWav16 N L pcm) (opts?.getD {}) (minimalWav16 N L pcm).length
            (some { formatId := 1, floatingPoint := false, numberOfChannels := N,
                    sampleRate := 44100, byteRate := 0, blockSize := 2 * N, bitDepth := 16 })
            ⟨36, true, false⟩ := by rw [edf]
      _ = decodeData (minimalWav16 N L pcm) (N * L * 2)
            (some { formatId := 1, floatingPoint := false, numberOfChannels := N,
                    sampleRate := 44100, byteRate := 0, blockSize := 2 * N, bitDepth := 16 })
            (opts?.getD {}) ⟨44, true, false⟩ := by rw [hfuel]; exact e2
      _ = _ := heq
  · exact hlen1
  · show JSLen.fin (Int.fdiv (min ((N * L * 2 : ℕ) : ℤ)
      (((minimalWav16 N L pcm).length : ℤ) - 44))
      (((2 * N : ℕ) : ℤ) * ((N : ℕ) : ℤ))) = JSLen.fin ((L / N : ℕ) : ℤ)
    rw [hdiv]
  · intro c hc
    have := hchlen c hc
    rw [show (min ((N * L * 2 : ℕ) : ℤ)
      (((minimalWav16 N L pcm).length : ℤ) - 44)).toNat / (2 * N * N) = L / N from by
        rw [hmin, Int.toNat_ofNat, hnatdiv]] at this
    exact this

/-- Witness for C1: `N = 2`, `L = 4` — eight 16-bit samples decode into two
channels of length `4 / 2 = 2` each. -/
theorem c1_channel_lengths_witness :
    ∃ info s1, decodeSync (minimalWav16 2 4
        [1, 0, 2, 0, 3, 0, 4, 0, 5, 0, 6, 0, 7, 0, 8, 0]) none = .ok (info, s1) ∧
      info.channelData.length = 2 ∧
      info.length = .fin ((4 / 2 : ℕ) : ℤ) ∧
      ∀ c ∈ info.channelData, c.length = 4 / 2 :=
  c1_channel_lengths 2 4 [1, 0, 2, 0, 3, 0, 4, 0, 5, 0, 6, 0, 7, 0, 8, 0] none
    (by decide) (by decide) (by decide) (by decide)

end WavDec
